import Mathlib

/-!
# Verification model of the fiber-profiler capture engine

Shallow embedding of `ext/fiber/profiler/capture.c` and
`ext/fiber/profiler/deque.h` (socketry/fiber-profiler).

Modelling conventions:

* Monotonic time (`struct timespec`) and the `double` durations derived from it
  are modelled as exact integers (`Int`, think nanoseconds).  Every duration in
  the C code is a difference of two clock reads combined by
  `Fiber_Profiler_Time_delta`; the claims under study only compare durations
  against thresholds, so the exact-arithmetic idealisation is faithful and no
  claim hinges on floating-point rounding.
* The paged arena (`struct Fiber_Profiler_Deque`) is modelled twice, matching
  how the claims use it:
  - a page-level model (`Fiber_Profiler_Deque`) that records page sizes and
    capacities, used for the allocation/truncation/page-reuse claims;
  - inside the capture state, the arena of `Call` records is modelled as the
    flat list of live elements in insertion order.  This is the abstraction
    the page-level invariant guarantees: pages before the tail page are full
    and pages after it are empty, so `Deque_push` appends one element at the
    logical tail, `Deque_pop` removes the last live element (walking backwards
    over empty pages), `Deque_last` peeks it, and `Deque_truncate` empties the
    sequence.  Page-stable element pointers become stable list indices: frames
    are only ever removed from the tail, so an index, like a page-stable
    pointer, stays valid while the frame is live.
* `VALUE`/`ID` identity data (`id`, `klass`) and the owned source location
  (`path`, `line`) are resolved from the host runtime and never influence any
  control flow under study; they are omitted from the `Call` record.
* External nondeterminism is passed in as explicit arguments: the clock read
  (`now`), the success of `malloc` inside `Deque_push` (`alloc`), and the
  outcome of the sampling decision in `fiber_switch` (`sample`).
* Side effects on the host are returned as values: `fiber_switch` returns the
  list of durations passed to the report printer, and `stop` returns the list
  of elements passed to the configured element finaliser (`element_free`)
  while tearing down the window.
-/

/-- The event flags the capture engine distinguishes.  `capture.c` registers
hooks for the eight call/return-class flags; `line` stands for any other flag
(for example `RUBY_EVENT_LINE`, present but commented out in
`Fiber_Profiler_Capture_resume`) and reaches the unclassified branch of the
callback. -/
inductive Fiber_Profiler_EventFlag where
  | call
  | c_call
  | b_call
  | gc_start
  | ret
  | c_ret
  | b_ret
  | gc_end_sweep
  | line
deriving DecidableEq, Repr

/-- `event_flag_call_p`: membership in
`RUBY_EVENT_CALL | RUBY_EVENT_C_CALL | RUBY_EVENT_B_CALL | RUBY_INTERNAL_EVENT_GC_START`. -/
def event_flag_call_p : Fiber_Profiler_EventFlag → Bool
  | .call => true
  | .c_call => true
  | .b_call => true
  | .gc_start => true
  | _ => false

/-- `event_flag_return_p`: membership in
`RUBY_EVENT_RETURN | RUBY_EVENT_C_RETURN | RUBY_EVENT_B_RETURN | RUBY_INTERNAL_EVENT_GC_END_SWEEP`. -/
def event_flag_return_p : Fiber_Profiler_EventFlag → Bool
  | .ret => true
  | .c_ret => true
  | .b_ret => true
  | .gc_end_sweep => true
  | _ => false

/-- `struct Fiber_Profiler_Capture_Call`.  `parent` is the page-stable pointer
to the enclosing frame, modelled as a stable index into the flat arena list. -/
structure Fiber_Profiler_Capture_Call where
  enter_time : Int
  duration : Int
  nesting : Int
  children : Nat
  filtered : Nat
  event_flag : Fiber_Profiler_EventFlag
  parent : Option Nat
deriving DecidableEq, Repr

/-- `Fiber_Profiler_Capture_Call_initialize` (the arena's `element_initialize`
hook): zero every field.  The zero event flag is not one of the named flags;
`line` plays the role of the unclassified default here. -/
def Fiber_Profiler_Capture_Call_init : Fiber_Profiler_Capture_Call :=
  { enter_time := 0
    duration := 0
    nesting := 0
    children := 0
    filtered := 0
    event_flag := .line
    parent := none }

/-- Update the element at index `i` in place (a write through an element
pointer in the C code); out-of-range indices leave the list unchanged. -/
def listModify (l : List α) (i : Nat) (f : α → α) : List α :=
  match l.get? i with
  | some a => l.set i (f a)
  | none => l

/-- `struct Fiber_Profiler_Capture`.  `calls` is the arena of live frames in
insertion order (see the module comment); `thread_set`, `fiber_switch_hook`
and `call_hooks` model the `thread` field and the two kinds of event-hook
registration held on the host; `output_nil` models `output == Qnil`. -/
structure Fiber_Profiler_Capture where
  stall_threshold : Int
  filter_threshold : Int
  track_calls : Bool
  sample_rate : Rat
  output_nil : Bool
  switches : Nat
  samples : Nat
  stalls : Nat
  running : Bool
  thread_set : Bool
  capture : Bool
  start_time : Int
  switch_time : Int
  nesting : Int
  nesting_minimum : Int
  current : Option Nat
  calls : List Fiber_Profiler_Capture_Call
  fiber_switch_hook : Bool
  call_hooks : Bool
deriving DecidableEq, Repr

/-- `Fiber_Profiler_Capture_Call_new`.  `alloc` is the outcome of the `malloc`
that `Fiber_Profiler_Deque_push` performs when (and only when) a fresh page is
required; `alloc = false` stands for `Deque_push` returning `NULL`
(see `Fiber_Profiler_Deque_push_none_iff` for the page-level condition).  The
C function stores through the returned pointer without a `NULL` check
(`call->event_flag = event_flag;` on line 343 of capture.c), so a failed
allocation is undefined behaviour — a crash — modelled as `none`.
On success, returns the updated state and the new frame's index. -/
def Fiber_Profiler_Capture_Call_new (cap : Fiber_Profiler_Capture)
    (event_flag : Fiber_Profiler_EventFlag) (alloc : Bool) :
    Option (Fiber_Profiler_Capture × Nat) :=
  if alloc then
    let idx := cap.calls.length
    -- Deque_push: default-initialized slot at the logical tail.
    let call : Fiber_Profiler_Capture_Call :=
      { Fiber_Profiler_Capture_Call_init with
          event_flag := event_flag
          -- call->parent = capture->current
          parent := cap.current
          -- call->nesting = capture->nesting
          nesting := cap.nesting }
    let calls := cap.calls ++ [call]
    -- if (call->parent) call->parent->children += 1
    let calls :=
      match cap.current with
      | some p => listModify calls p (fun c => { c with children := c.children + 1 })
      | none => calls
    -- capture->current = call
    some ({ cap with calls := calls, current := some idx }, idx)
  else
    none

/-- `Fiber_Profiler_Capture_Call_finish`: compute-side filtering of the frame
at index `idx` (the C function receives it as a pointer; the callers always
pass a live frame).  Returns the new state and, when the frame was discarded,
the element value handed to `element_free` by `Deque_pop` (the C code nulls
the parent link before popping).  `DEBUG_FILTERED` is 0 in the source. -/
def Fiber_Profiler_Capture_Call_finish (cap : Fiber_Profiler_Capture) (idx : Nat) :
    Fiber_Profiler_Capture × Option Fiber_Profiler_Capture_Call :=
  match cap.calls.get? idx with
  | none => (cap, none)
  | some call =>
    if event_flag_return_p call.event_flag then
      -- return statements are always part of the call stack: never filtered
      (cap, none)
    else if call.duration < cap.filter_threshold then
      -- call == Fiber_Profiler_Deque_last(&capture->calls)?  Pointer equality
      -- with the last live element means idx is the last index.
      if idx + 1 = cap.calls.length then
        let cap1 :=
          if cap.current = some idx then { cap with current := call.parent } else cap
        let cap2 :=
          match call.parent with
          | some p =>
            { cap1 with
                calls := listModify cap1.calls p
                  (fun c => { c with children := c.children - 1, filtered := c.filtered + 1 }) }
          | none => cap1
        -- call->parent = NULL, then Fiber_Profiler_Deque_pop
        (({ cap2 with calls := cap2.calls.dropLast }),
          some { call with parent := none })
      else
        (cap, none)
    else
      (cap, none)

/-- `Fiber_Profiler_Capture_callback`: the per-event entry point.  `now` is the
`Fiber_Profiler_Time_current` clock read, `alloc` the `malloc` outcome if a
fresh arena page is needed.  `none` models the crash of an unchecked `NULL`
from `Deque_push` (see `Fiber_Profiler_Capture_Call_new`). -/
def Fiber_Profiler_Capture_callback (cap : Fiber_Profiler_Capture)
    (event_flag : Fiber_Profiler_EventFlag) (now : Int) (alloc : Bool) :
    Option Fiber_Profiler_Capture :=
  -- if (!capture->capture) return
  if !cap.capture then some cap
  else if event_flag_call_p event_flag then
    match Fiber_Profiler_Capture_Call_new cap event_flag alloc with
    | none => none
    | some (cap1, idx) =>
      -- capture->nesting += 1; Fiber_Profiler_Time_current(&call->enter_time)
      some { cap1 with
              nesting := cap1.nesting + 1
              calls := listModify cap1.calls idx (fun c => { c with enter_time := now }) }
  else if event_flag_return_p event_flag then
    match cap.current with
    | none =>
      -- return without a preceding call: synthesize a frame
      let last_call := cap.calls.getLast?
      match Fiber_Profiler_Capture_Call_new cap event_flag alloc with
      | none => none
      | some (cap1, idx) =>
        let call_time :=
          match last_call with
          | some lc => lc.enter_time
          | none => cap.switch_time
        -- call->enter_time = now; call->duration = delta(call_time, now)
        let cap2 := { cap1 with
          calls := listModify cap1.calls idx
            (fun c => { c with enter_time := now, duration := now - call_time }) }
        -- capture->current = call->parent (Call_new stored the old current there)
        let parent := (cap2.calls.get? idx).bind (·.parent)
        let cap3 := { cap2 with
          current := parent
          nesting := cap2.nesting - 1
          nesting_minimum := min (cap2.nesting - 1) cap2.nesting_minimum }
        some (Fiber_Profiler_Capture_Call_finish cap3 idx).1
    | some idx =>
      match cap.calls.get? idx with
      | none => some cap  -- unreachable: current always indexes a live frame
      | some call =>
        -- call->duration = Time_delta_current(&call->enter_time)
        let cap1 := { cap with
          calls := listModify cap.calls idx
            (fun c => { c with duration := now - c.enter_time }) }
        let cap2 := { cap1 with
          current := call.parent
          nesting := cap1.nesting - 1
          nesting_minimum := min (cap1.nesting - 1) cap1.nesting_minimum }
        some (Fiber_Profiler_Capture_Call_finish cap2 idx).1
  else
    -- unclassified event (for example a line-level probe)
    let last_call := cap.calls.getLast?
    match Fiber_Profiler_Capture_Call_new cap event_flag alloc with
    | none => none
    | some (cap1, idx) =>
      let enter :=
        match last_call with
        | some lc => lc.enter_time
        | none => cap.switch_time
      -- call->enter_time = previous tail or switch time; duration = delta to now.
      -- Note: Call_new made this frame the current frame and this branch does
      -- not restore capture->current.
      some { cap1 with
              calls := listModify cap1.calls idx
                (fun c => { c with enter_time := enter, duration := now - enter }) }

/-- `Fiber_Profiler_Capture_pause`. -/
def Fiber_Profiler_Capture_pause (cap : Fiber_Profiler_Capture) : Fiber_Profiler_Capture :=
  if !cap.capture then cap
  else
    { cap with
        capture := false
        call_hooks := if cap.track_calls then false else cap.call_hooks }

/-- `Fiber_Profiler_Capture_resume`. -/
def Fiber_Profiler_Capture_resume (cap : Fiber_Profiler_Capture) : Fiber_Profiler_Capture :=
  if cap.capture then cap
  else
    { cap with
        capture := true
        samples := cap.samples + 1
        call_hooks := if cap.track_calls then true else cap.call_hooks }

/-- `Fiber_Profiler_Capture_reset`: reset the sample state and truncate the
call log. -/
def Fiber_Profiler_Capture_reset (cap : Fiber_Profiler_Capture) : Fiber_Profiler_Capture :=
  { cap with
      nesting := 0
      nesting_minimum := 0
      current := none
      calls := [] }

/-- `Fiber_Profiler_Capture_start`.  Returns `false` (Ruby `Qfalse`) and the
unchanged state when already running. -/
def Fiber_Profiler_Capture_start (cap : Fiber_Profiler_Capture) (now : Int) :
    Bool × Fiber_Profiler_Capture :=
  if cap.running then (false, cap)
  else
    (true,
      { (Fiber_Profiler_Capture_reset { cap with running := true, thread_set := true }) with
          start_time := now
          fiber_switch_hook := true })

/-- `Fiber_Profiler_Capture_stop`.  Returns `false` and the unchanged state
when not running; otherwise pauses, detaches the fiber-switch hook and resets.
The third component is the list of elements handed to `element_free` while the
arena is truncated by the final `reset` (their values at finalisation time). -/
def Fiber_Profiler_Capture_stop (cap : Fiber_Profiler_Capture) :
    Bool × Fiber_Profiler_Capture × List Fiber_Profiler_Capture_Call :=
  if !cap.running then (false, cap, [])
  else
    let cap1 := Fiber_Profiler_Capture_pause cap
    let cap2 := { cap1 with fiber_switch_hook := false, running := false, thread_set := false }
    (true, Fiber_Profiler_Capture_reset cap2, cap2.calls)

/-- One step of the loop in `Fiber_Profiler_Capture_finish`: close the frame
at `idx` against the cutoff `t` and run it through `Call_finish`, accumulating
the elements freed by filtering.  `fuel` bounds the walk; the parent chain has
strictly decreasing indices, so `calls.length + 1` is always enough. -/
def Fiber_Profiler_Capture_finishChain (cap : Fiber_Profiler_Capture)
    (cur : Option Nat) (t : Int) : Nat →
    Fiber_Profiler_Capture × List Fiber_Profiler_Capture_Call
  | 0 => (cap, [])
  | fuel + 1 =>
    match cur with
    | none => (cap, [])
    | some idx =>
      match cap.calls.get? idx with
      | none => (cap, [])
      | some call =>
        -- struct ..._Call *parent = current->parent (read before finishing)
        -- current->duration = Fiber_Profiler_Time_delta(&current->enter_time, &switch_time)
        let cap1 := { cap with
          calls := listModify cap.calls idx (fun c => { c with duration := t - c.enter_time }) }
        let r := Fiber_Profiler_Capture_Call_finish cap1 idx
        let rest := Fiber_Profiler_Capture_finishChain r.1 call.parent t fuel
        (rest.1, r.2.toList ++ rest.2)

/-- `Fiber_Profiler_Capture_finish`: force-close every still-open frame
(walking the parent chain from `current`) against the cutoff `switch_time`,
filtering each. -/
def Fiber_Profiler_Capture_finish (cap : Fiber_Profiler_Capture) (t : Int) :
    Fiber_Profiler_Capture :=
  (Fiber_Profiler_Capture_finishChain cap cap.current t (cap.calls.length + 1)).1

/-- `Fiber_Profiler_Capture_sample`: the per-switch sampling decision.
`blocking` is the host's answer to `Fiber_Profiler_Fiber_blocking`, and
`randv` models `rand() / RAND_MAX` as a rational in `[0, 1]`. -/
def Fiber_Profiler_Capture_sample (cap : Fiber_Profiler_Capture)
    (blocking : Bool) (randv : Rat) : Bool :=
  if blocking then false
  else if cap.sample_rate < 1 then randv < cap.sample_rate
  else true

/-- `Fiber_Profiler_Capture_print`: stage and flush one report unless the
output is `Qnil`.  Returns the renderer invocations (as the durations passed
to `capture->print`). -/
def Fiber_Profiler_Capture_print (cap : Fiber_Profiler_Capture) (duration : Int) : List Int :=
  if cap.output_nil then [] else [duration]

/-- `Fiber_Profiler_Capture_fiber_switch`.  `now` is the clock read at the
switch and `sample` the outcome of `Fiber_Profiler_Capture_sample` for the
newly active fiber.  Returns the new state and the report-renderer
invocations. -/
def Fiber_Profiler_Capture_fiber_switch (cap : Fiber_Profiler_Capture)
    (now : Int) (sample : Bool) : Fiber_Profiler_Capture × List Int :=
  let cap := { cap with switches := cap.switches + 1 }
  let (cap, reports) :=
    if cap.capture then
      -- duration of the sample:
      let duration := now - cap.switch_time
      let cap := Fiber_Profiler_Capture_pause cap
      let cap := Fiber_Profiler_Capture_finish cap now
      let (cap, reports) :=
        if duration > cap.stall_threshold then
          ({ cap with stalls := cap.stalls + 1 }, Fiber_Profiler_Capture_print cap duration)
        else (cap, [])
      (Fiber_Profiler_Capture_reset cap, reports)
    else (cap, [])
  if sample then
    ({ Fiber_Profiler_Capture_resume cap with switch_time := now }, reports)
  else (cap, reports)

/-- `Fiber_Profiler_Capture_absolute_nesting`: the indentation level used at
report time. -/
def Fiber_Profiler_Capture_absolute_nesting (cap : Fiber_Profiler_Capture)
    (call : Fiber_Profiler_Capture_Call) : Int :=
  call.nesting - cap.nesting_minimum

/-!
## Page-level arena model

`struct Fiber_Profiler_Deque` from `deque.h`, tracking the page chain's sizes
and capacities.  Element payloads are irrelevant to the allocation claims and
are not tracked at this level.  `tailIndex` is the position of the page the
`tail` pointer designates (meaningful only when `pages` is nonempty); the
doubly linked page chain is the list order.  The write-only accumulator
`deque->capacity` (incremented on allocation, never read) is elided. -/

/-- One `struct Fiber_Profiler_Deque_Page`: its logical size and fixed
capacity. -/
structure Fiber_Profiler_Deque_Page where
  size : Nat
  capacity : Nat
deriving DecidableEq, Repr

/-- The page chain (`head` first) and the index of the tail page. -/
structure Fiber_Profiler_Deque where
  pages : List Fiber_Profiler_Deque_Page
  tailIndex : Nat
deriving DecidableEq, Repr

/-- A deque with no pages (`head = tail = NULL`), the state after
`Fiber_Profiler_Deque_initialize`. -/
def Fiber_Profiler_Deque_empty : Fiber_Profiler_Deque := ⟨[], 0⟩

/-- `Fiber_Profiler_Deque_push`, parameterised by the default page capacity
`C` (`Fiber_Profiler_Deque_default_capacity`, a positive constant derived from
the element size) and by the outcome `alloc` of `malloc` inside
`Fiber_Profiler_Deque_Page_allocate`.  `none` is the `NULL` return on
allocation failure; `alloc` is consulted only on the branches that actually
call the allocator. -/
def Fiber_Profiler_Deque_push (C : Nat) (deque : Fiber_Profiler_Deque) (alloc : Bool) :
    Option Fiber_Profiler_Deque :=
  if deque.pages.isEmpty then
    -- page == NULL: allocate the first page and push into it
    if alloc then some ⟨[⟨1, C⟩], 0⟩ else none
  else
    match deque.pages.get? deque.tailIndex with
    | none => none  -- unreachable: the tail pointer designates a live page
    | some page =>
      if page.size = page.capacity then
        if deque.tailIndex + 1 < deque.pages.length then
          -- page->tail exists: reuse the previously truncated page
          some ⟨listModify deque.pages (deque.tailIndex + 1)
                  (fun p => { p with size := p.size + 1 }),
                deque.tailIndex + 1⟩
        else
          -- allocate a fresh page at the end of the chain
          if alloc then
            some ⟨deque.pages ++ [⟨1, C⟩], deque.tailIndex + 1⟩
          else none
      else
        some ⟨listModify deque.pages deque.tailIndex
                (fun p => { p with size := p.size + 1 }),
              deque.tailIndex⟩

/-- Zero the logical size of the pages at positions `k, k+1, …` that lie at or
before position `t` (the pages the truncation loop visits on its walk from the
tail page back to the head). -/
def Fiber_Profiler_Deque_truncPages (t : Nat) :
    List Fiber_Profiler_Deque_Page → Nat → List Fiber_Profiler_Deque_Page
  | [], _ => []
  | p :: rest, k =>
    (if k ≤ t then { p with size := 0 } else p) ::
      Fiber_Profiler_Deque_truncPages t rest (k + 1)

/-- `Fiber_Profiler_Deque_truncate`: walk from the tail page back to the head,
resetting each page's logical size to zero (without freeing the page), then
rewind the tail pointer to the head page. -/
def Fiber_Profiler_Deque_truncate (deque : Fiber_Profiler_Deque) : Fiber_Profiler_Deque :=
  ⟨Fiber_Profiler_Deque_truncPages deque.tailIndex deque.pages 0, 0⟩

/-- The `element_free` invocations performed by the walk of
`Fiber_Profiler_Deque_truncate`: one per live element of every page at or
before position `t`. -/
def Fiber_Profiler_Deque_truncFreed (t : Nat) :
    List Fiber_Profiler_Deque_Page → Nat → Nat
  | [], _ => 0
  | p :: rest, k =>
    (if k ≤ t then p.size else 0) + Fiber_Profiler_Deque_truncFreed t rest (k + 1)

/-- The number of `element_free` invocations `Fiber_Profiler_Deque_truncate`
performs. -/
def Fiber_Profiler_Deque_truncate_freed (deque : Fiber_Profiler_Deque) : Nat :=
  Fiber_Profiler_Deque_truncFreed deque.tailIndex deque.pages 0

/-- `Fiber_Profiler_Deque_memory_size`, parameterised by
`sizeof(struct Fiber_Profiler_Deque_Page)` and the element size. -/
def Fiber_Profiler_Deque_memory_size (pageHeader elementSize : Nat)
    (deque : Fiber_Profiler_Deque) : Nat :=
  deque.pages.foldl (fun acc p => acc + pageHeader + p.capacity * elementSize) 0

/-- `n` consecutive successful pushes. -/
def Fiber_Profiler_Deque_pushN (C : Nat) (deque : Fiber_Profiler_Deque) : Nat →
    Fiber_Profiler_Deque
  | 0 => deque
  | n + 1 =>
    match Fiber_Profiler_Deque_push C (Fiber_Profiler_Deque_pushN C deque n) true with
    | some d => d
    | none => Fiber_Profiler_Deque_pushN C deque n

/-- The total number of live elements. -/
def Fiber_Profiler_Deque_totalSize (deque : Fiber_Profiler_Deque) : Nat :=
  (deque.pages.map (·.size)).sum

/-!
## Derived definitions used by the verification statements
-/

/-- The enter time a synthesized frame borrows: the most recent recorded
frame's enter time if the arena is non-empty, otherwise the window's
switch time (the common subexpression of the orphan-return and unclassified
branches of the callback). -/
def Fiber_Profiler_Capture_windowEnter (cap : Fiber_Profiler_Capture) : Int :=
  match cap.calls.getLast? with
  | some lc => lc.enter_time
  | none => cap.switch_time

/-- All capture fields except the arena (`calls`) and the current-frame
pointer agree.  Frame finalisation (`Call_finish`, `finish`) touches only the
arena and `current`; this records that. -/
def Fiber_Profiler_Capture_sameSession (a b : Fiber_Profiler_Capture) : Prop :=
  a.stall_threshold = b.stall_threshold ∧
  a.filter_threshold = b.filter_threshold ∧
  a.track_calls = b.track_calls ∧
  a.sample_rate = b.sample_rate ∧
  a.output_nil = b.output_nil ∧
  a.switches = b.switches ∧
  a.samples = b.samples ∧
  a.stalls = b.stalls ∧
  a.running = b.running ∧
  a.thread_set = b.thread_set ∧
  a.capture = b.capture ∧
  a.start_time = b.start_time ∧
  a.switch_time = b.switch_time ∧
  a.nesting = b.nesting ∧
  a.nesting_minimum = b.nesting_minimum ∧
  a.fiber_switch_hook = b.fiber_switch_hook ∧
  a.call_hooks = b.call_hooks

/-- The structural invariant of the capture state machine.  `parent` pointers
point to frames pushed strictly earlier (page-stable pointers, modelled as
smaller indices), `current` designates a live frame, the session nesting
counter sits one above the current frame's recorded nesting, and every frame's
recorded nesting is one above its parent's.  It holds for every state
reachable from `start()` through call/return-class events and fiber switches. -/
structure Fiber_Profiler_Capture_Inv (cap : Fiber_Profiler_Capture) : Prop where
  parent_lt : ∀ i c p, cap.calls.get? i = some c → c.parent = some p → p < i
  current_lt : ∀ i, cap.current = some i → i < cap.calls.length
  current_nesting : ∀ i c, cap.current = some i → cap.calls.get? i = some c →
    cap.nesting = c.nesting + 1
  parent_nesting : ∀ i c p pc, cap.calls.get? i = some c → c.parent = some p →
    cap.calls.get? p = some pc → c.nesting = pc.nesting + 1

/-- The indices visited by the walk of `Fiber_Profiler_Capture_finish`: the
parent chain of `cur`, cut off by `fuel`. -/
def Fiber_Profiler_Capture_chainList (cap : Fiber_Profiler_Capture) :
    Option Nat → Nat → List Nat
  | _, 0 => []
  | none, _ => []
  | some i, fuel + 1 =>
    i :: Fiber_Profiler_Capture_chainList cap ((cap.calls.get? i).bind (·.parent)) fuel

/-- Feed a list of timestamped events through the callback (all arena-page
allocations succeeding). -/
def Fiber_Profiler_Capture_run (cap : Fiber_Profiler_Capture) :
    List (Fiber_Profiler_EventFlag × Int) → Option Fiber_Profiler_Capture
  | [] => some cap
  | (f, t) :: rest =>
    match Fiber_Profiler_Capture_callback cap f t true with
    | none => none
    | some c => Fiber_Profiler_Capture_run c rest

/-- The `stop()` behaviour worded by the specification, for comparison with
the code's `Fiber_Profiler_Capture_stop`: on session stop, every still-open
frame is force-closed against a supplied cutoff timestamp (`now`, the stop
time) and passed through the filter policy, *before* the arena is truncated.
The third component lists the elements handed to `element_free` (those popped
by the filter during finalisation, then those freed by truncation). -/
def Fiber_Profiler_Capture_stop_spec (cap : Fiber_Profiler_Capture) (now : Int) :
    Bool × Fiber_Profiler_Capture × List Fiber_Profiler_Capture_Call :=
  if !cap.running then (false, cap, [])
  else
    let cap1 := Fiber_Profiler_Capture_pause cap
    let fin := Fiber_Profiler_Capture_finishChain cap1 cap1.current now (cap1.calls.length + 1)
    let cap2 := { fin.1 with fiber_switch_hook := false, running := false, thread_set := false }
    (true, Fiber_Profiler_Capture_reset cap2, fin.2 ++ cap2.calls)

/-- Representation invariant of the page-level arena: every page has the
default capacity `C`, the tail pointer designates a live page, pages before
the tail are full, pages after it are empty, and the tail page is within
capacity.  `Fiber_Profiler_Deque_initialize` establishes it and every
operation preserves it. -/
structure Fiber_Profiler_Deque_Wf (C : Nat) (d : Fiber_Profiler_Deque) : Prop where
  cap_eq : ∀ p ∈ d.pages, p.capacity = C
  tail_lt : d.pages = [] ∨ d.tailIndex < d.pages.length
  full_before : ∀ i p, i < d.tailIndex → d.pages.get? i = some p → p.size = p.capacity
  empty_after : ∀ i p, d.tailIndex < i → d.pages.get? i = some p → p.size = 0
  size_le : ∀ p, d.pages.get? d.tailIndex = some p → p.size ≤ p.capacity

/-!
## Concrete states used by witnesses and counterexamples
-/

/-- A freshly constructed capture (the state after
`Fiber_Profiler_Capture_allocate` + `initialize` with explicit thresholds):
not running, nothing recorded. -/
def Fiber_Profiler_Capture_test_base : Fiber_Profiler_Capture :=
  { stall_threshold := 10
    filter_threshold := 1
    track_calls := true
    sample_rate := 1
    output_nil := false
    switches := 0
    samples := 0
    stalls := 0
    running := false
    thread_set := false
    capture := false
    start_time := 0
    switch_time := 0
    nesting := 0
    nesting_minimum := 0
    current := none
    calls := []
    fiber_switch_hook := false
    call_hooks := false }

/-- A running, capturing session with an empty arena whose current window
began at time 2 (the state right after the first sampled fiber switch). -/
def Fiber_Profiler_Capture_test_capturing : Fiber_Profiler_Capture :=
  { Fiber_Profiler_Capture_test_base with
      running := true
      capture := true
      samples := 1
      switches := 1
      switch_time := 2
      call_hooks := true
      fiber_switch_hook := true }

/-- A call frame opened at time 3 with no parent, as recorded by a `call`
event at session nesting 0. -/
def Fiber_Profiler_Capture_test_frame0 : Fiber_Profiler_Capture_Call :=
  { enter_time := 3
    duration := 0
    nesting := 0
    children := 1
    filtered := 0
    event_flag := .call
    parent := none }

/-- A call frame opened at time 4 nested inside
`Fiber_Profiler_Capture_test_frame0`. -/
def Fiber_Profiler_Capture_test_frame1 : Fiber_Profiler_Capture_Call :=
  { enter_time := 4
    duration := 0
    nesting := 1
    children := 0
    filtered := 0
    event_flag := .call
    parent := some 0 }

/-- A capturing session with two open nested frames (`frame1` inside
`frame0`), as produced by two `call` events in the current window. -/
def Fiber_Profiler_Capture_test_open2 : Fiber_Profiler_Capture :=
  { Fiber_Profiler_Capture_test_capturing with
      nesting := 2
      current := some 1
      calls := [Fiber_Profiler_Capture_test_frame0, Fiber_Profiler_Capture_test_frame1] }

/-!
## Basic lemmas about the in-place update helper
-/

theorem listModify_length (l : List α) (i : Nat) (f : α → α) :
    (listModify l i f).length = l.length := by
  unfold listModify
  cases h : l.get? i <;> simp

theorem get?_some_lt_length {l : List α} {i : Nat} {a : α} (h : l.get? i = some a) :
    i < l.length := by
  by_contra hn
  rw [List.get?_eq_none.mpr (Nat.le_of_not_lt hn)] at h
  exact Option.noConfusion h

theorem listModify_get?_self {l : List α} {i : Nat} {a : α} (h : l.get? i = some a)
    (f : α → α) : (listModify l i f).get? i = some (f a) := by
  unfold listModify
  rw [h]
  have hlt : i < l.length := get?_some_lt_length h
  simp [List.get?_eq_getElem?, List.getElem?_set_self hlt]

theorem listModify_get?_ne (l : List α) {i j : Nat} (h : i ≠ j) (f : α → α) :
    (listModify l i f).get? j = l.get? j := by
  unfold listModify
  cases hh : l.get? i
  · rfl
  · simp [List.get?_eq_getElem?, List.getElem?_set_ne h]

theorem listModify_oob {l : List α} {i : Nat} (h : l.get? i = none) (f : α → α) :
    listModify l i f = l := by
  unfold listModify
  rw [h]

/-!
## C10 — start/stop are strict no-ops in the wrong lifecycle state
-/

/-- C10: `start()` on a session that is already running returns `Qfalse` and
leaves the entire session state unchanged (counters, arena contents, current
frame, thread, start time and both event-hook registrations); symmetrically,
`stop()` on a session that is not running returns `Qfalse`, changes nothing
and runs no finaliser. -/
theorem Fiber_Profiler_Capture_start_stop_noop (cap : Fiber_Profiler_Capture) (now : Int) :
    (cap.running = true → Fiber_Profiler_Capture_start cap now = (false, cap)) ∧
    (cap.running = false → Fiber_Profiler_Capture_stop cap = (false, cap, [])) := by
  constructor
  · intro h
    simp [Fiber_Profiler_Capture_start, h]
  · intro h
    simp [Fiber_Profiler_Capture_stop, h]

/-- Witness for C10 at a concrete running state and a concrete idle state. -/
theorem Fiber_Profiler_Capture_start_stop_noop_witness :
    Fiber_Profiler_Capture_start Fiber_Profiler_Capture_test_capturing 7 =
      (false, Fiber_Profiler_Capture_test_capturing) ∧
    Fiber_Profiler_Capture_stop Fiber_Profiler_Capture_test_base =
      (false, Fiber_Profiler_Capture_test_base, []) :=
  ⟨(Fiber_Profiler_Capture_start_stop_noop Fiber_Profiler_Capture_test_capturing 7).1 rfl,
   (Fiber_Profiler_Capture_start_stop_noop Fiber_Profiler_Capture_test_base 7).2 rfl⟩

/-!
## C4 — what `start()` actually establishes

The claim says `start()` on an idle session transitions to running-capturing
(or to running-paused only if sampling opts out of the first window).  The
code never consults the sampling policy in `start()` and never attaches the
call/return hooks there: capture begins only at the first subsequent fiber
switch, so the session is always running-paused right after `start()`.
-/

/-- Counterexample for C4: an idle session with `sample_rate = 1`.  Sampling
at rate 1 never opts out (the sampling decision is `true` for every random
draw and a non-blocking fiber), yet after `start()` the session is
running-paused: the capture flag is off and the call/return hooks are
detached.  So `start()` did not transition to running-capturing although
sampling did not opt out. -/
theorem Fiber_Profiler_Capture_start_counterexample :
    (Fiber_Profiler_Capture_start Fiber_Profiler_Capture_test_base 5).2.running = true ∧
    (Fiber_Profiler_Capture_start Fiber_Profiler_Capture_test_base 5).2.capture = false ∧
    (Fiber_Profiler_Capture_start Fiber_Profiler_Capture_test_base 5).2.call_hooks = false ∧
    Fiber_Profiler_Capture_sample
      (Fiber_Profiler_Capture_start Fiber_Profiler_Capture_test_base 5).2 false 0 = true ∧
    Fiber_Profiler_Capture_sample
      (Fiber_Profiler_Capture_start Fiber_Profiler_Capture_test_base 5).2 false 1 = true := by
  refine ⟨rfl, rfl, rfl, ?_, ?_⟩ <;>
    simp [Fiber_Profiler_Capture_sample, Fiber_Profiler_Capture_start,
      Fiber_Profiler_Capture_reset, Fiber_Profiler_Capture_test_base]

/-- C4 (amended): `start()` on an idle session transitions it to
running-*paused* — capturing begins only at a later fiber switch, via the
sampling policy — resets the nesting counters, truncates the arena, records
the session start time, and registers for fiber-switch notifications. -/
theorem Fiber_Profiler_Capture_start_spec (cap : Fiber_Profiler_Capture) (now : Int)
    (hrun : cap.running = false) (hcap : cap.capture = false) :
    (Fiber_Profiler_Capture_start cap now).1 = true ∧
    (Fiber_Profiler_Capture_start cap now).2.running = true ∧
    (Fiber_Profiler_Capture_start cap now).2.capture = false ∧
    (Fiber_Profiler_Capture_start cap now).2.call_hooks = cap.call_hooks ∧
    (Fiber_Profiler_Capture_start cap now).2.nesting = 0 ∧
    (Fiber_Profiler_Capture_start cap now).2.nesting_minimum = 0 ∧
    (Fiber_Profiler_Capture_start cap now).2.current = none ∧
    (Fiber_Profiler_Capture_start cap now).2.calls = [] ∧
    (Fiber_Profiler_Capture_start cap now).2.start_time = now ∧
    (Fiber_Profiler_Capture_start cap now).2.fiber_switch_hook = true ∧
    (Fiber_Profiler_Capture_start cap now).2.thread_set = true ∧
    (Fiber_Profiler_Capture_start cap now).2.switches = cap.switches ∧
    (Fiber_Profiler_Capture_start cap now).2.samples = cap.samples ∧
    (Fiber_Profiler_Capture_start cap now).2.stalls = cap.stalls := by
  simp [Fiber_Profiler_Capture_start, Fiber_Profiler_Capture_reset, hrun, hcap]

/-- Witness for C4's amended theorem at the concrete idle state. -/
theorem Fiber_Profiler_Capture_start_spec_witness :
    (Fiber_Profiler_Capture_start Fiber_Profiler_Capture_test_base 5).2.capture = false ∧
    (Fiber_Profiler_Capture_start Fiber_Profiler_Capture_test_base 5).2.start_time = 5 ∧
    (Fiber_Profiler_Capture_start Fiber_Profiler_Capture_test_base 5).2.fiber_switch_hook = true := by
  have h := Fiber_Profiler_Capture_start_spec Fiber_Profiler_Capture_test_base 5 rfl rfl
  exact ⟨h.2.2.1, h.2.2.2.2.2.2.2.2.1, h.2.2.2.2.2.2.2.2.2.1⟩

/-!
## Session-field preservation by frame finalisation
-/

theorem Fiber_Profiler_Capture_sameSession_refl (cap : Fiber_Profiler_Capture) :
    Fiber_Profiler_Capture_sameSession cap cap := by
  unfold Fiber_Profiler_Capture_sameSession
  repeat' constructor

theorem Fiber_Profiler_Capture_sameSession_trans {a b c : Fiber_Profiler_Capture}
    (h1 : Fiber_Profiler_Capture_sameSession a b)
    (h2 : Fiber_Profiler_Capture_sameSession b c) :
    Fiber_Profiler_Capture_sameSession a c := by
  unfold Fiber_Profiler_Capture_sameSession at *
  obtain ⟨a1, a2, a3, a4, a5, a6, a7, a8, a9, a10, a11, a12, a13, a14, a15, a16, a17⟩ := h1
  obtain ⟨b1, b2, b3, b4, b5, b6, b7, b8, b9, b10, b11, b12, b13, b14, b15, b16, b17⟩ := h2
  exact ⟨a1.trans b1, a2.trans b2, a3.trans b3, a4.trans b4, a5.trans b5, a6.trans b6,
    a7.trans b7, a8.trans b8, a9.trans b9, a10.trans b10, a11.trans b11, a12.trans b12,
    a13.trans b13, a14.trans b14, a15.trans b15, a16.trans b16, a17.trans b17⟩

theorem Fiber_Profiler_Capture_sameSession_calls (cap : Fiber_Profiler_Capture)
    (calls : List Fiber_Profiler_Capture_Call) :
    Fiber_Profiler_Capture_sameSession { cap with calls := calls } cap :=
  Fiber_Profiler_Capture_sameSession_refl cap

theorem Fiber_Profiler_Capture_sameSession_calls_current (cap : Fiber_Profiler_Capture)
    (calls : List Fiber_Profiler_Capture_Call) (cur : Option Nat) :
    Fiber_Profiler_Capture_sameSession { cap with calls := calls, current := cur } cap :=
  Fiber_Profiler_Capture_sameSession_refl cap

/-- `Call_finish` touches only the arena and the current-frame pointer. -/
theorem Fiber_Profiler_Capture_Call_finish_sameSession (cap : Fiber_Profiler_Capture)
    (idx : Nat) :
    Fiber_Profiler_Capture_sameSession (Fiber_Profiler_Capture_Call_finish cap idx).1 cap := by
  unfold Fiber_Profiler_Capture_Call_finish
  repeat' split
  all_goals exact Fiber_Profiler_Capture_sameSession_refl cap

/-- Window finalisation touches only the arena and the current-frame
pointer. -/
theorem Fiber_Profiler_Capture_finishChain_sameSession :
    ∀ (fuel : Nat) (cap : Fiber_Profiler_Capture) (cur : Option Nat) (t : Int),
      Fiber_Profiler_Capture_sameSession
        (Fiber_Profiler_Capture_finishChain cap cur t fuel).1 cap := by
  intro fuel
  induction fuel with
  | zero =>
    intro cap cur t
    exact Fiber_Profiler_Capture_sameSession_refl cap
  | succ n ih =>
    intro cap cur t
    unfold Fiber_Profiler_Capture_finishChain
    cases cur with
    | none => exact Fiber_Profiler_Capture_sameSession_refl cap
    | some idx =>
      cases h : cap.calls.get? idx with
      | none =>
        simp only [h]
        exact Fiber_Profiler_Capture_sameSession_refl cap
      | some call =>
        simp only [h]
        refine Fiber_Profiler_Capture_sameSession_trans (ih _ _ _) ?_
        refine Fiber_Profiler_Capture_sameSession_trans
          (Fiber_Profiler_Capture_Call_finish_sameSession _ idx) ?_
        exact Fiber_Profiler_Capture_sameSession_refl cap

theorem Fiber_Profiler_Capture_finish_sameSession (cap : Fiber_Profiler_Capture) (t : Int) :
    Fiber_Profiler_Capture_sameSession (Fiber_Profiler_Capture_finish cap t) cap :=
  Fiber_Profiler_Capture_finishChain_sameSession _ cap cap.current t

/-!
## C5 — switch counting, stall trigger and window truncation
-/


theorem Fiber_Profiler_Capture_finish_stall_threshold (cap : Fiber_Profiler_Capture) (t : Int) :
    (Fiber_Profiler_Capture_finish cap t).stall_threshold = cap.stall_threshold :=
  (Fiber_Profiler_Capture_finish_sameSession cap t).1

theorem Fiber_Profiler_Capture_finish_filter_threshold (cap : Fiber_Profiler_Capture) (t : Int) :
    (Fiber_Profiler_Capture_finish cap t).filter_threshold = cap.filter_threshold :=
  (Fiber_Profiler_Capture_finish_sameSession cap t).2.1

theorem Fiber_Profiler_Capture_finish_output_nil (cap : Fiber_Profiler_Capture) (t : Int) :
    (Fiber_Profiler_Capture_finish cap t).output_nil = cap.output_nil :=
  (Fiber_Profiler_Capture_finish_sameSession cap t).2.2.2.2.1

theorem Fiber_Profiler_Capture_finish_switches (cap : Fiber_Profiler_Capture) (t : Int) :
    (Fiber_Profiler_Capture_finish cap t).switches = cap.switches :=
  (Fiber_Profiler_Capture_finish_sameSession cap t).2.2.2.2.2.1

theorem Fiber_Profiler_Capture_finish_samples (cap : Fiber_Profiler_Capture) (t : Int) :
    (Fiber_Profiler_Capture_finish cap t).samples = cap.samples :=
  (Fiber_Profiler_Capture_finish_sameSession cap t).2.2.2.2.2.2.1

theorem Fiber_Profiler_Capture_finish_stalls (cap : Fiber_Profiler_Capture) (t : Int) :
    (Fiber_Profiler_Capture_finish cap t).stalls = cap.stalls :=
  (Fiber_Profiler_Capture_finish_sameSession cap t).2.2.2.2.2.2.2.1

theorem Fiber_Profiler_Capture_finish_capture (cap : Fiber_Profiler_Capture) (t : Int) :
    (Fiber_Profiler_Capture_finish cap t).capture = cap.capture :=
  (Fiber_Profiler_Capture_finish_sameSession cap t).2.2.2.2.2.2.2.2.2.2.1

theorem Fiber_Profiler_Capture_finish_track_calls (cap : Fiber_Profiler_Capture) (t : Int) :
    (Fiber_Profiler_Capture_finish cap t).track_calls = cap.track_calls :=
  (Fiber_Profiler_Capture_finish_sameSession cap t).2.2.1

theorem Fiber_Profiler_Capture_pause_stall_threshold (cap : Fiber_Profiler_Capture) :
    (Fiber_Profiler_Capture_pause cap).stall_threshold = cap.stall_threshold := by
  unfold Fiber_Profiler_Capture_pause
  split <;> rfl

theorem Fiber_Profiler_Capture_pause_filter_threshold (cap : Fiber_Profiler_Capture) :
    (Fiber_Profiler_Capture_pause cap).filter_threshold = cap.filter_threshold := by
  unfold Fiber_Profiler_Capture_pause
  split <;> rfl

theorem Fiber_Profiler_Capture_pause_output_nil (cap : Fiber_Profiler_Capture) :
    (Fiber_Profiler_Capture_pause cap).output_nil = cap.output_nil := by
  unfold Fiber_Profiler_Capture_pause
  split <;> rfl

theorem Fiber_Profiler_Capture_pause_switches (cap : Fiber_Profiler_Capture) :
    (Fiber_Profiler_Capture_pause cap).switches = cap.switches := by
  unfold Fiber_Profiler_Capture_pause
  split <;> rfl

theorem Fiber_Profiler_Capture_pause_samples (cap : Fiber_Profiler_Capture) :
    (Fiber_Profiler_Capture_pause cap).samples = cap.samples := by
  unfold Fiber_Profiler_Capture_pause
  split <;> rfl

theorem Fiber_Profiler_Capture_pause_stalls (cap : Fiber_Profiler_Capture) :
    (Fiber_Profiler_Capture_pause cap).stalls = cap.stalls := by
  unfold Fiber_Profiler_Capture_pause
  split <;> rfl

theorem Fiber_Profiler_Capture_pause_calls (cap : Fiber_Profiler_Capture) :
    (Fiber_Profiler_Capture_pause cap).calls = cap.calls := by
  unfold Fiber_Profiler_Capture_pause
  split <;> rfl

theorem Fiber_Profiler_Capture_pause_current (cap : Fiber_Profiler_Capture) :
    (Fiber_Profiler_Capture_pause cap).current = cap.current := by
  unfold Fiber_Profiler_Capture_pause
  split <;> rfl

theorem Fiber_Profiler_Capture_pause_capture (cap : Fiber_Profiler_Capture)
    (h : cap.capture = true) : (Fiber_Profiler_Capture_pause cap).capture = false := by
  unfold Fiber_Profiler_Capture_pause
  simp [h]

/-- C5: on every fiber switch the switch counter is incremented; if the ended
window was being captured and its duration `now - switch_time` exceeds the
stall threshold, the stall counter is incremented exactly once and the report
renderer is invoked exactly once with that duration (given a configured
output); a captured window at or below the threshold does neither; and the
arena is truncated regardless of the stall decision.  A window that was not
being captured reports nothing and leaves the arena as it was. -/
theorem Fiber_Profiler_Capture_fiber_switch_spec (cap : Fiber_Profiler_Capture)
    (now : Int) (sample : Bool) :
    (Fiber_Profiler_Capture_fiber_switch cap now sample).1.switches = cap.switches + 1 ∧
    (cap.capture = true →
      (Fiber_Profiler_Capture_fiber_switch cap now sample).1.calls = [] ∧
      (now - cap.switch_time > cap.stall_threshold →
        (Fiber_Profiler_Capture_fiber_switch cap now sample).1.stalls = cap.stalls + 1 ∧
        (cap.output_nil = false →
          (Fiber_Profiler_Capture_fiber_switch cap now sample).2 = [now - cap.switch_time])) ∧
      (¬ now - cap.switch_time > cap.stall_threshold →
        (Fiber_Profiler_Capture_fiber_switch cap now sample).1.stalls = cap.stalls ∧
        (Fiber_Profiler_Capture_fiber_switch cap now sample).2 = [])) ∧
    (cap.capture = false →
      (Fiber_Profiler_Capture_fiber_switch cap now sample).1.stalls = cap.stalls ∧
      (Fiber_Profiler_Capture_fiber_switch cap now sample).2 = [] ∧
      (Fiber_Profiler_Capture_fiber_switch cap now sample).1.calls = cap.calls) := by
  cases hc : cap.capture with
  | false =>
    cases sample <;>
      simp [Fiber_Profiler_Capture_fiber_switch, hc, Fiber_Profiler_Capture_resume,
        Fiber_Profiler_Capture_pause]
  | true =>
    cases hgt : decide (cap.stall_threshold < now - cap.switch_time) with
    | true =>
      have hgt' : cap.stall_threshold < now - cap.switch_time := of_decide_eq_true hgt
      cases sample <;>
        simp [Fiber_Profiler_Capture_fiber_switch, hc,
          Fiber_Profiler_Capture_finish_stall_threshold,
          Fiber_Profiler_Capture_finish_output_nil,
          Fiber_Profiler_Capture_finish_switches,
          Fiber_Profiler_Capture_finish_stalls,
          Fiber_Profiler_Capture_finish_capture,
          Fiber_Profiler_Capture_pause_stall_threshold,
          Fiber_Profiler_Capture_pause_output_nil,
          Fiber_Profiler_Capture_pause_switches,
          Fiber_Profiler_Capture_pause_stalls,
          Fiber_Profiler_Capture_pause_capture,
          Fiber_Profiler_Capture_reset, Fiber_Profiler_Capture_resume,
          Fiber_Profiler_Capture_print, hgt', not_lt.mpr (le_of_lt hgt')]
    | false =>
      have hle : ¬ cap.stall_threshold < now - cap.switch_time := of_decide_eq_false hgt
      cases sample <;>
        simp [Fiber_Profiler_Capture_fiber_switch, hc,
          Fiber_Profiler_Capture_finish_stall_threshold,
          Fiber_Profiler_Capture_finish_output_nil,
          Fiber_Profiler_Capture_finish_switches,
          Fiber_Profiler_Capture_finish_stalls,
          Fiber_Profiler_Capture_finish_capture,
          Fiber_Profiler_Capture_pause_stall_threshold,
          Fiber_Profiler_Capture_pause_output_nil,
          Fiber_Profiler_Capture_pause_switches,
          Fiber_Profiler_Capture_pause_stalls,
          Fiber_Profiler_Capture_pause_capture,
          Fiber_Profiler_Capture_reset, Fiber_Profiler_Capture_resume,
          Fiber_Profiler_Capture_print, hle]

/-- Witness for C5: a captured window of duration 18 against stall threshold
10 bumps the switch and stall counters and emits exactly one report. -/
theorem Fiber_Profiler_Capture_fiber_switch_spec_witness :
    (Fiber_Profiler_Capture_fiber_switch Fiber_Profiler_Capture_test_capturing 20 false).1.switches = 2 ∧
    (Fiber_Profiler_Capture_fiber_switch Fiber_Profiler_Capture_test_capturing 20 false).1.stalls = 1 ∧
    (Fiber_Profiler_Capture_fiber_switch Fiber_Profiler_Capture_test_capturing 20 false).2 = [18] ∧
    (Fiber_Profiler_Capture_fiber_switch Fiber_Profiler_Capture_test_capturing 20 false).1.calls = [] := by
  have h := Fiber_Profiler_Capture_fiber_switch_spec Fiber_Profiler_Capture_test_capturing 20 false
  have hcap := h.2.1 rfl
  exact ⟨h.1, (hcap.2.1 (by decide)).1, (hcap.2.1 (by decide)).2 rfl, hcap.1⟩

theorem event_flag_not_call_of_return {f : Fiber_Profiler_EventFlag}
    (h : event_flag_return_p f = true) : event_flag_call_p f = false := by
  cases f <;> simp_all [event_flag_call_p, event_flag_return_p]

theorem listModify_concat_get?_last (l : List α) (a : α) (g f : α → α) {p : Nat}
    (hp : p < l.length) :
    (listModify (listModify (l ++ [a]) p g) l.length f).get? l.length = some (f a) := by
  have h1 : (listModify (l ++ [a]) p g).get? l.length = some a := by
    rw [listModify_get?_ne _ (Nat.ne_of_lt hp) _]
    exact List.get?_concat_length _ _
  exact listModify_get?_self h1 f

theorem listModify_concat (l : List α) (a : α) (f : α → α) :
    listModify (l ++ [a]) l.length f = l ++ [f a] := by
  unfold listModify
  rw [List.get?_concat_length]
  induction l with
  | nil => rfl
  | cons x xs ih => simpa [List.set] using ih

/-!
## C6 — orphan-return synthesis
-/

/-- Closed form of the orphan-return branch of the callback (shared helper). -/
theorem Fiber_Profiler_Capture_orphan_eq (cap : Fiber_Profiler_Capture)
    (flag : Fiber_Profiler_EventFlag) (now : Int)
    (hcap : cap.capture = true) (hcur : cap.current = none)
    (hret : event_flag_return_p flag = true) :
    Fiber_Profiler_Capture_callback cap flag now true =
      some { cap with
        calls := cap.calls ++
          [{ enter_time := now
             duration := now - Fiber_Profiler_Capture_windowEnter cap
             nesting := cap.nesting
             children := 0
             filtered := 0
             event_flag := flag
             parent := none }]
        current := none
        nesting := cap.nesting - 1
        nesting_minimum := min (cap.nesting - 1) cap.nesting_minimum } := by
  have hnc := event_flag_not_call_of_return hret
  unfold Fiber_Profiler_Capture_callback
  rw [hcap]
  simp only [Bool.not_true, Bool.false_eq_true, if_false, hnc, hret, if_true, hcur]
  unfold Fiber_Profiler_Capture_Call_new
  simp only [hcur, if_true, ite_true]
  rw [listModify_concat]
  simp only [List.get?_concat_length, Option.bind_some]
  unfold Fiber_Profiler_Capture_Call_finish
  rw [List.get?_concat_length]
  simp only [hret, if_true]
  unfold Fiber_Profiler_Capture_windowEnter
  cases h : cap.calls.getLast? <;> simp [h, hcap, Fiber_Profiler_Capture_Call_init]

/-- C6: processing a return-class event while there is no current frame
synthesizes exactly one frame and is not an error: the new frame's duration is
the delta to `now` from the most recent recorded frame's enter time when the
arena is non-empty, otherwise from the window's switch time
(`Fiber_Profiler_Capture_windowEnter`); the stack stays empty and the session
nesting drops by one.  The closed form gives the entire resulting state. -/
theorem Fiber_Profiler_Capture_orphan_return (cap : Fiber_Profiler_Capture)
    (flag : Fiber_Profiler_EventFlag) (now : Int)
    (hcap : cap.capture = true) (hcur : cap.current = none)
    (hret : event_flag_return_p flag = true) :
    Fiber_Profiler_Capture_callback cap flag now true =
      some { cap with
        calls := cap.calls ++
          [{ enter_time := now
             duration := now - Fiber_Profiler_Capture_windowEnter cap
             nesting := cap.nesting
             children := 0
             filtered := 0
             event_flag := flag
             parent := none }]
        current := none
        nesting := cap.nesting - 1
        nesting_minimum := min (cap.nesting - 1) cap.nesting_minimum } :=
  Fiber_Profiler_Capture_orphan_eq cap flag now hcap hcur hret

/-- Witness for C6: a single `return` event at time 7 with no prior call, in a
window that began at time 2, yields exactly one synthesized frame of
duration 5 (the delta from the window's switch time to now), with the stack
still empty. -/
theorem Fiber_Profiler_Capture_orphan_return_witness :
    (Fiber_Profiler_Capture_callback Fiber_Profiler_Capture_test_capturing .ret 7 true).map
        (fun c => (c.calls.map (·.duration), c.calls.length, c.current)) =
      some ([5], 1, none) := by
  rw [Fiber_Profiler_Capture_orphan_return Fiber_Profiler_Capture_test_capturing .ret 7
    rfl rfl rfl]
  rfl

/-!
## C9 — unclassified events

The claim says an unclassified event creates a frame without altering the
stack.  The enter/duration derivation and the unchanged nesting counter hold,
but `Call_new` unconditionally makes the new frame the current frame and the
unclassified branch of the callback never restores it, so the current-frame
pointer does change.
-/

/-- Counterexample for C9: before a `line` event the current-frame pointer is
`none`; after it, the current-frame pointer designates the newly created
frame (index 0), so the stack was altered. -/
theorem Fiber_Profiler_Capture_line_event_counterexample :
    Fiber_Profiler_Capture_test_capturing.current = none ∧
    (Fiber_Profiler_Capture_callback Fiber_Profiler_Capture_test_capturing .line 7 true).map
        (·.current) = some (some 0) ∧
    some (some 0) ≠ some (none : Option Nat) := by
  refine ⟨rfl, rfl, by simp⟩

/-- C9 (amended): processing an unclassified event creates one frame whose
enter time is the previous tail frame's enter time if the arena is non-empty,
else the window's switch time, with duration the delta from there to now; the
session nesting counter is unchanged, but the new frame *becomes the current
frame* (the stack is altered). -/
theorem Fiber_Profiler_Capture_line_event (cap : Fiber_Profiler_Capture)
    (flag : Fiber_Profiler_EventFlag) (now : Int)
    (hcap : cap.capture = true)
    (hcall : event_flag_call_p flag = false)
    (hret : event_flag_return_p flag = false)
    (hcur : ∀ p, cap.current = some p → p < cap.calls.length) :
    ∀ cap', Fiber_Profiler_Capture_callback cap flag now true = some cap' →
      cap'.nesting = cap.nesting ∧
      cap'.nesting_minimum = cap.nesting_minimum ∧
      cap'.current = some cap.calls.length ∧
      cap'.calls.length = cap.calls.length + 1 ∧
      cap'.calls.get? cap.calls.length =
        some { enter_time := Fiber_Profiler_Capture_windowEnter cap
               duration := now - Fiber_Profiler_Capture_windowEnter cap
               nesting := cap.nesting
               children := 0
               filtered := 0
               event_flag := flag
               parent := cap.current } := by
  intro cap' h
  unfold Fiber_Profiler_Capture_callback at h
  rw [hcap] at h
  simp only [Bool.not_true, Bool.false_eq_true, if_false, hcall, hret, if_true] at h
  unfold Fiber_Profiler_Capture_Call_new at h
  simp only [if_true, ite_true] at h
  cases hc : cap.current with
  | none =>
    rw [hc] at h
    simp only [] at h
    rw [listModify_concat] at h
    cases h
    refine ⟨rfl, rfl, rfl, by simp, ?_⟩
    rw [List.get?_concat_length]
    unfold Fiber_Profiler_Capture_windowEnter
    cases hl : cap.calls.getLast? <;>
      simp [hl, Fiber_Profiler_Capture_Call_init]
  | some p =>
    rw [hc] at h
    have hplt : p < cap.calls.length := hcur p hc
    simp only [] at h
    cases h
    refine ⟨rfl, rfl, rfl, by simp [listModify_length], ?_⟩
    rw [listModify_concat_get?_last _ _ _ _ hplt]
    unfold Fiber_Profiler_Capture_windowEnter
    cases hl : cap.calls.getLast? <;>
      simp [hl, Fiber_Profiler_Capture_Call_init]

/-- Witness for C9's amended theorem: the `line` event at time 7 in the empty
capturing window creates one frame, leaves nesting at 0, and makes the new
frame (index 0) current. -/
theorem Fiber_Profiler_Capture_line_event_witness :
    (Fiber_Profiler_Capture_callback Fiber_Profiler_Capture_test_capturing .line 7 true).map
        (·.nesting) = some 0 ∧
    (Fiber_Profiler_Capture_callback Fiber_Profiler_Capture_test_capturing .line 7 true).map
        (·.current) = some (some 0) ∧
    (Fiber_Profiler_Capture_callback Fiber_Profiler_Capture_test_capturing .line 7 true).map
        (fun c => c.calls.length) = some 1 := by
  cases hx : Fiber_Profiler_Capture_callback Fiber_Profiler_Capture_test_capturing .line 7 true with
  | none => exact absurd hx (by decide)
  | some c =>
    obtain ⟨h1, _, h3, h4, _⟩ := Fiber_Profiler_Capture_line_event
      Fiber_Profiler_Capture_test_capturing .line 7 rfl rfl rfl
      (fun p hp => by
        simp [Fiber_Profiler_Capture_test_capturing, Fiber_Profiler_Capture_test_base] at hp)
      c hx
    simp [h1, h3, h4, Fiber_Profiler_Capture_test_capturing, Fiber_Profiler_Capture_test_base]

/-!
## C2 — the filter policy

The discard condition and its effects are as claimed, but the claim's final
clause — "a frame with duration below the filter threshold is never present
in `each()` after its return event is processed" — does not follow: a
return-class frame is always retained, and a below-threshold frame that is
not the arena tail is retained too.
-/

/-- Counterexample for C2's "never present" clause: an orphan `return` with no
prior call at the very moment the window began synthesizes a return-class
frame of duration 0, below the filter threshold 1; its return event has been
processed, yet the frame is present in `each()` (the arena holds exactly that
frame). -/
theorem Fiber_Profiler_Capture_Call_finish_counterexample :
    (Fiber_Profiler_Capture_callback Fiber_Profiler_Capture_test_capturing .ret 2 true).map
        (fun c => c.calls.map (·.duration)) = some [0] ∧
    (0 : Int) < Fiber_Profiler_Capture_test_capturing.filter_threshold := by
  exact ⟨rfl, by decide⟩

/-- The discard branch of `Call_finish`, fully characterised: the element
value handed to `element_free` (parent link detached), the arena shrunk by
popping the tail, the current-pointer fix-up, the parent's counter updates,
and the untouched remainder. -/
theorem Fiber_Profiler_Capture_Call_finish_pop (cap : Fiber_Profiler_Capture)
    (idx : Nat) (call : Fiber_Profiler_Capture_Call)
    (h : cap.calls.get? idx = some call)
    (hr : event_flag_return_p call.event_flag = false)
    (hd : call.duration < cap.filter_threshold)
    (ht : idx + 1 = cap.calls.length) :
    (Fiber_Profiler_Capture_Call_finish cap idx).2 = some { call with parent := none } ∧
    (Fiber_Profiler_Capture_Call_finish cap idx).1.calls.length = idx ∧
    (Fiber_Profiler_Capture_Call_finish cap idx).1.calls.get? idx = none ∧
    (Fiber_Profiler_Capture_Call_finish cap idx).1.current =
      (if cap.current = some idx then call.parent else cap.current) ∧
    (∀ p pc, call.parent = some p → p < idx → cap.calls.get? p = some pc →
      (Fiber_Profiler_Capture_Call_finish cap idx).1.calls.get? p =
        some { pc with children := pc.children - 1, filtered := pc.filtered + 1 }) ∧
    (∀ j, j < idx → call.parent ≠ some j →
      (Fiber_Profiler_Capture_Call_finish cap idx).1.calls.get? j = cap.calls.get? j) := by
  cases hp : call.parent with
  | none =>
    have hfin : Fiber_Profiler_Capture_Call_finish cap idx =
        ({ cap with
            current := if cap.current = some idx then none else cap.current
            calls := cap.calls.dropLast },
         some { call with parent := none }) := by
      unfold Fiber_Profiler_Capture_Call_finish
      rw [h]
      simp only [hr, Bool.false_eq_true, if_false, if_pos hd, if_pos ht, hp]
      by_cases hcc : cap.current = some idx <;> simp [hcc]
    rw [hfin]
    refine ⟨rfl, by simp; omega, ?_, rfl, ?_, ?_⟩
    · rw [List.get?_eq_getElem?, List.getElem?_dropLast, if_neg (by omega)]
    · intro p pc hpp
      exact absurd hpp (by simp)
    · intro j hj _
      rw [List.get?_eq_getElem?, List.getElem?_dropLast, if_pos (by omega),
        ← List.get?_eq_getElem?]
  | some p =>
    have hfin : Fiber_Profiler_Capture_Call_finish cap idx =
        ({ cap with
            current := if cap.current = some idx then some p else cap.current
            calls := (listModify cap.calls p
              (fun c => { c with children := c.children - 1,
                                 filtered := c.filtered + 1 })).dropLast },
         some { call with parent := none }) := by
      unfold Fiber_Profiler_Capture_Call_finish
      rw [h]
      simp only [hr, Bool.false_eq_true, if_false, if_pos hd, if_pos ht, hp]
      by_cases hcc : cap.current = some idx <;> simp [hcc]
    rw [hfin]
    refine ⟨rfl, by simp [listModify_length]; omega, ?_, rfl, ?_, ?_⟩
    · rw [List.get?_eq_getElem?, List.getElem?_dropLast, listModify_length,
        if_neg (by omega)]
    · intro q pc hpq hqlt hgq
      have hq : q = p := by
        cases hpq
        rfl
      subst hq
      rw [List.get?_eq_getElem?, List.getElem?_dropLast, listModify_length,
        if_pos (by omega), ← List.get?_eq_getElem?]
      exact listModify_get?_self hgq _
    · intro j hj hne
      have hjp : p ≠ j := by
        intro hh
        exact hne (hh ▸ rfl)
      rw [List.get?_eq_getElem?, List.getElem?_dropLast, listModify_length,
        if_pos (by omega), ← List.get?_eq_getElem?]
      exact listModify_get?_ne _ hjp _

/-- C2 (amended): a finished frame is discarded by the filter policy exactly
when its duration is below the filter threshold, it is not a return-class
event, and it is the arena's tail; discarding decrements its parent's children
counter by 1, increments its parent's filtered counter by 1, detaches the
parent link and pops the frame from the arena — so a *non-return-class* frame
that is the arena's *tail* when its return event is processed, with duration
below the threshold, is absent from `each()` afterwards.  (The original
unconditional "never present" clause is refuted by
`Fiber_Profiler_Capture_Call_finish_counterexample`.) -/
theorem Fiber_Profiler_Capture_filter_policy :
    (∀ (cap : Fiber_Profiler_Capture) (idx : Nat) (call : Fiber_Profiler_Capture_Call),
      cap.calls.get? idx = some call →
      ((Fiber_Profiler_Capture_Call_finish cap idx).2.isSome = true ↔
        (event_flag_return_p call.event_flag = false ∧
          call.duration < cap.filter_threshold ∧ idx + 1 = cap.calls.length))) ∧
    (∀ (cap : Fiber_Profiler_Capture) (idx : Nat) (call : Fiber_Profiler_Capture_Call),
      cap.calls.get? idx = some call →
      event_flag_return_p call.event_flag = false →
      call.duration < cap.filter_threshold →
      idx + 1 = cap.calls.length →
      (Fiber_Profiler_Capture_Call_finish cap idx).2 = some { call with parent := none } ∧
      (Fiber_Profiler_Capture_Call_finish cap idx).1.calls.length = idx ∧
      (Fiber_Profiler_Capture_Call_finish cap idx).1.calls.get? idx = none ∧
      (∀ p pc, call.parent = some p → p < idx → cap.calls.get? p = some pc →
        (Fiber_Profiler_Capture_Call_finish cap idx).1.calls.get? p =
          some { pc with children := pc.children - 1, filtered := pc.filtered + 1 })) ∧
    (∀ (cap : Fiber_Profiler_Capture) (idx : Nat) (call : Fiber_Profiler_Capture_Call)
        (flag : Fiber_Profiler_EventFlag) (now : Int),
      cap.capture = true → cap.current = some idx →
      cap.calls.get? idx = some call →
      event_flag_return_p flag = true →
      event_flag_return_p call.event_flag = false →
      now - call.enter_time < cap.filter_threshold →
      idx + 1 = cap.calls.length →
      ∀ cap', Fiber_Profiler_Capture_callback cap flag now true = some cap' →
        cap'.calls.length = idx ∧ cap'.calls.get? idx = none ∧
        cap'.filter_threshold = cap.filter_threshold) := by
  refine ⟨?_, ?_, ?_⟩
  · intro cap idx call h
    unfold Fiber_Profiler_Capture_Call_finish
    rw [h]
    by_cases hr : event_flag_return_p call.event_flag <;>
      by_cases hd : call.duration < cap.filter_threshold <;>
      by_cases ht : idx + 1 = cap.calls.length <;>
      simp [hr, hd, ht]
  · intro cap idx call h hr hd ht
    obtain ⟨h1, h2, h3, _, h5, _⟩ :=
      Fiber_Profiler_Capture_Call_finish_pop cap idx call h hr hd ht
    exact ⟨h1, h2, h3, h5⟩
  · intro cap idx call flag now hcap hcur h hret hcr hd ht cap' hcb
    have hnc := event_flag_not_call_of_return hret
    unfold Fiber_Profiler_Capture_callback at hcb
    rw [if_neg (by simp [hcap]), if_neg (by simp [hnc]), if_pos hret, hcur] at hcb
    simp only [] at hcb
    rw [h] at hcb
    simp only [] at hcb
    set cap2 : Fiber_Profiler_Capture :=
      { cap with
          calls := listModify cap.calls idx
            (fun c => { c with duration := now - c.enter_time })
          current := call.parent
          nesting := cap.nesting - 1
          nesting_minimum := min (cap.nesting - 1) cap.nesting_minimum } with hcap2
    have hg2 : cap2.calls.get? idx = some { call with duration := now - call.enter_time } := by
      rw [hcap2]
      exact listModify_get?_self h _
    have ht2 : idx + 1 = cap2.calls.length := by
      rw [hcap2]
      simpa [listModify_length] using ht
    obtain ⟨_, h2, h3, _⟩ :=
      Fiber_Profiler_Capture_Call_finish_pop cap2 idx
        { call with duration := now - call.enter_time } hg2 hcr
        (by simpa using hd) ht2
    have hcb' : (Fiber_Profiler_Capture_Call_finish cap2 idx).1 = cap' := by
      exact Option.some.inj hcb
    rw [← hcb']
    exact ⟨h2, h3, (Fiber_Profiler_Capture_Call_finish_sameSession cap2 idx).2.1⟩

/-- Witness for C2's amended theorem: returning at time 3 from a frame opened
at time 3 (duration 0, below the filter threshold 1, tail of the arena) pops
the frame: the arena is empty afterwards. -/
theorem Fiber_Profiler_Capture_filter_policy_witness :
    (Fiber_Profiler_Capture_callback
        { Fiber_Profiler_Capture_test_capturing with
            current := some 0
            nesting := 1
            calls := [Fiber_Profiler_Capture_test_frame0] } .ret 3 true).map
      (fun c => (c.calls.length, c.calls.get? 0)) = some (0, none) := by
  cases hx : Fiber_Profiler_Capture_callback
      { Fiber_Profiler_Capture_test_capturing with
          current := some 0
          nesting := 1
          calls := [Fiber_Profiler_Capture_test_frame0] } .ret 3 true with
  | none => exact absurd hx (by decide)
  | some c =>
    obtain ⟨h1, h2, _⟩ := Fiber_Profiler_Capture_filter_policy.2.2
      { Fiber_Profiler_Capture_test_capturing with
          current := some 0
          nesting := 1
          calls := [Fiber_Profiler_Capture_test_frame0] }
      0 Fiber_Profiler_Capture_test_frame0 .ret 3 rfl rfl rfl rfl rfl (by decide) rfl c hx
    simp [h1, h2]

/-!
## C1 — allocation failure: `push` returns `NULL`, but `Call_new` crashes

`Fiber_Profiler_Deque_push` does return `NULL` exactly when a fresh page is
required and `malloc` fails.  But `Fiber_Profiler_Capture_Call_new` stores
through the returned pointer without any `NULL` check (capture.c lines
341-343), so the event is not "silently dropped": the engine dereferences a
null pointer and crashes into the instrumented program.
-/

/-- `push` returns `NULL` iff `malloc` failed on a branch that actually calls
the allocator: the deque has no page at all, or the tail page is full and has
no reusable successor.  (The hypothesis is the page-level representation
invariant: a live tail pointer.) -/
theorem Fiber_Profiler_Deque_push_none_iff (C : Nat) (d : Fiber_Profiler_Deque)
    (h : d.pages = [] ∨ d.tailIndex < d.pages.length) (alloc : Bool) :
    (Fiber_Profiler_Deque_push C d alloc = none ↔
      alloc = false ∧
        (d.pages = [] ∨ ∃ p, d.pages.get? d.tailIndex = some p ∧
          p.size = p.capacity ∧ d.tailIndex + 1 = d.pages.length)) := by
  unfold Fiber_Profiler_Deque_push
  by_cases hne : d.pages = []
  · cases alloc <;> simp [hne, List.isEmpty_iff]
  · have hlt : d.tailIndex < d.pages.length := h.resolve_left hne
    obtain ⟨page, hpage⟩ : ∃ p, d.pages.get? d.tailIndex = some p := by
      rw [List.get?_eq_getElem?]
      exact ⟨_, List.getElem?_eq_getElem hlt⟩
    rw [hpage]
    have hiff : d.tailIndex + 1 = d.pages.length ↔ ¬ d.tailIndex + 1 < d.pages.length := by
      omega
    by_cases hfull : page.size = page.capacity <;>
      by_cases hnext : d.tailIndex + 1 < d.pages.length <;>
      cases alloc <;>
      simp_all [List.isEmpty_iff] <;>
      omega

/-- C1 (code bug): at the failing input — a call event arriving while the
arena needs a fresh page and `malloc` fails — the callback crashes (`none`,
the model of the unchecked `NULL` dereference in `Call_new`) instead of
silently dropping the event.  The deque conjuncts show `push` itself behaves
as claimed: it returns `NULL` exactly on the allocating branches (empty deque;
full tail page with no reusable successor) and still succeeds without calling
the allocator when room is left (third conjunct, a page of size 3 and
capacity 64 with `alloc = false`). -/
theorem Fiber_Profiler_Capture_alloc_failure_crash :
    Fiber_Profiler_Capture_callback Fiber_Profiler_Capture_test_capturing .call 3 false = none ∧
    Fiber_Profiler_Deque_push 64 Fiber_Profiler_Deque_empty false = none ∧
    Fiber_Profiler_Deque_push 64 ⟨[⟨64, 64⟩], 0⟩ false = none ∧
    (Fiber_Profiler_Deque_push 64 ⟨[⟨3, 64⟩], 0⟩ false).isSome = true := by
  refine ⟨?_, by decide, by decide, by decide⟩
  rfl

/-!
## C7 — arena round-trip: lemmas about pages, sizes and capacities
-/

theorem listModify_cons_zero (a : α) (l : List α) (f : α → α) :
    listModify (a :: l) 0 f = f a :: l := by
  unfold listModify
  simp [List.set]

theorem listModify_cons_succ (a : α) (l : List α) (i : Nat) (f : α → α) :
    listModify (a :: l) (i + 1) f = a :: listModify l i f := by
  unfold listModify
  rw [show (a :: l).get? (i + 1) = l.get? i from rfl]
  cases h : l.get? i <;> simp [List.set]

theorem listModify_map_capacity (l : List Fiber_Profiler_Deque_Page) (i : Nat)
    (f : Fiber_Profiler_Deque_Page → Fiber_Profiler_Deque_Page)
    (hf : ∀ a, (f a).capacity = a.capacity) :
    (listModify l i f).map (·.capacity) = l.map (·.capacity) := by
  induction l generalizing i with
  | nil => rfl
  | cons a rest ih =>
    cases i with
    | zero => simp [listModify_cons_zero, hf]
    | succ j => simp [listModify_cons_succ, ih]

theorem sizes_sum_listModify_succ (l : List Fiber_Profiler_Deque_Page) (i : Nat)
    (p : Fiber_Profiler_Deque_Page) (h : l.get? i = some p) :
    ((listModify l i (fun q => { q with size := q.size + 1 })).map (·.size)).sum =
      (l.map (·.size)).sum + 1 := by
  induction l generalizing i with
  | nil => exact absurd h (by simp)
  | cons a rest ih =>
    cases i with
    | zero =>
      simp [listModify_cons_zero]
      omega
    | succ j =>
      rw [listModify_cons_succ]
      simp only [List.map_cons, List.sum_cons, ih j (by simpa using h)]
      omega

theorem sizes_sum_zero (l : List Fiber_Profiler_Deque_Page)
    (h : ∀ i q, l.get? i = some q → q.size = 0) :
    (l.map (·.size)).sum = 0 := by
  induction l with
  | nil => rfl
  | cons a rest ih =>
    simp only [List.map_cons, List.sum_cons]
    rw [h 0 a rfl, ih (fun i q hq => h (i + 1) q (by simpa using hq))]

theorem sizes_sum_of_partition (C : Nat) :
    ∀ (l : List Fiber_Profiler_Deque_Page) (k : Nat) (p : Fiber_Profiler_Deque_Page),
      (∀ i q, i < k → l.get? i = some q → q.size = C) →
      (∀ i q, k < i → l.get? i = some q → q.size = 0) →
      l.get? k = some p →
      (l.map (·.size)).sum = C * k + p.size := by
  intro l
  induction l with
  | nil =>
    intro k p _ _ hk
    exact absurd hk (by simp)
  | cons a rest ih =>
    intro k p hfull hzero hk
    cases k with
    | zero =>
      cases hk
      simp only [List.map_cons, List.sum_cons]
      rw [sizes_sum_zero rest (fun i q hq => hzero (i + 1) q (by omega) (by simpa using hq))]
      simp
    | succ j =>
      have ha : a.size = C := hfull 0 a (by omega) rfl
      have hrest := ih j p
        (fun i q hi hq => hfull (i + 1) q (by omega) (by simpa using hq))
        (fun i q hi hq => hzero (i + 1) q (by omega) (by simpa using hq))
        (by simpa using hk)
      simp only [List.map_cons, List.sum_cons, ha, hrest]
      ring

theorem Fiber_Profiler_Deque_Wf_empty (C : Nat) :
    Fiber_Profiler_Deque_Wf C Fiber_Profiler_Deque_empty := by
  constructor
  · intro p hp
    exact absurd hp (by simp [Fiber_Profiler_Deque_empty])
  · exact Or.inl rfl
  · intro i p _ hp
    exact absurd hp (by simp [Fiber_Profiler_Deque_empty])
  · intro i p _ hp
    exact absurd hp (by simp [Fiber_Profiler_Deque_empty])
  · intro p hp
    exact absurd hp (by simp [Fiber_Profiler_Deque_empty])

theorem Fiber_Profiler_Deque_Wf_cap_get? {C : Nat} {d : Fiber_Profiler_Deque}
    (hwf : Fiber_Profiler_Deque_Wf C d) {i : Nat} {p : Fiber_Profiler_Deque_Page}
    (h : d.pages.get? i = some p) : p.capacity = C :=
  hwf.cap_eq p (List.get?_mem h)

theorem cap_eq_of_map_capacity {C : Nat} {l l₀ : List Fiber_Profiler_Deque_Page}
    (hmap : l.map (·.capacity) = l₀.map (·.capacity))
    (h₀ : ∀ p ∈ l₀, p.capacity = C) : ∀ p ∈ l, p.capacity = C := by
  intro p hp
  obtain ⟨j, hj⟩ := List.mem_iff_get?.mp hp
  have h1 : (l.map (·.capacity)).get? j = some p.capacity := by
    rw [List.get?_map, hj]
    rfl
  rw [hmap, List.get?_map] at h1
  cases hq : l₀.get? j with
  | none => rw [hq] at h1; exact Option.noConfusion h1
  | some q =>
    rw [hq] at h1
    have : q.capacity = p.capacity := Option.some.inj h1
    rw [← this]
    exact h₀ q (List.get?_mem hq)

theorem Fiber_Profiler_Deque_totalSize_le {C : Nat} {d : Fiber_Profiler_Deque}
    (hwf : Fiber_Profiler_Deque_Wf C d) :
    Fiber_Profiler_Deque_totalSize d ≤ C * d.pages.length := by
  rcases hwf.tail_lt with hnil | hlt
  · simp [Fiber_Profiler_Deque_totalSize, hnil]
  · obtain ⟨p, hp⟩ : ∃ p, d.pages.get? d.tailIndex = some p := by
      rw [List.get?_eq_getElem?]
      exact ⟨_, List.getElem?_eq_getElem hlt⟩
    have hfull : ∀ i q, i < d.tailIndex → d.pages.get? i = some q → q.size = C := by
      intro i q hi hq
      rw [hwf.full_before i q hi hq]
      exact Fiber_Profiler_Deque_Wf_cap_get? hwf hq
    have hsum := sizes_sum_of_partition C d.pages d.tailIndex p hfull hwf.empty_after hp
    have hple : p.size ≤ C := by
      have := hwf.size_le p hp
      rwa [Fiber_Profiler_Deque_Wf_cap_get? hwf hp] at this
    unfold Fiber_Profiler_Deque_totalSize
    rw [hsum]
    have : d.tailIndex + 1 ≤ d.pages.length := hlt
    calc C * d.tailIndex + p.size ≤ C * d.tailIndex + C := by omega
    _ = C * (d.tailIndex + 1) := by ring
    _ ≤ C * d.pages.length := Nat.mul_le_mul_left C this

theorem Fiber_Profiler_Deque_memory_size_foldl (pageHeader elementSize : Nat) :
    ∀ (l : List Fiber_Profiler_Deque_Page) (init : Nat),
      l.foldl (fun acc p => acc + pageHeader + p.capacity * elementSize) init =
        init + (l.map (fun p => pageHeader + p.capacity * elementSize)).sum := by
  intro l
  induction l with
  | nil => intro init; simp
  | cons a rest ih =>
    intro init
    simp only [List.foldl_cons, List.map_cons, List.sum_cons, ih]
    ring

theorem Fiber_Profiler_Deque_memory_size_eq (pageHeader elementSize : Nat)
    (d : Fiber_Profiler_Deque) :
    Fiber_Profiler_Deque_memory_size pageHeader elementSize d =
      (d.pages.map (fun p => pageHeader + p.capacity * elementSize)).sum := by
  unfold Fiber_Profiler_Deque_memory_size
  rw [Fiber_Profiler_Deque_memory_size_foldl]
  simp

theorem Fiber_Profiler_Deque_memory_size_congr (pageHeader elementSize : Nat)
    {a b : Fiber_Profiler_Deque}
    (h : a.pages.map (·.capacity) = b.pages.map (·.capacity)) :
    Fiber_Profiler_Deque_memory_size pageHeader elementSize a =
      Fiber_Profiler_Deque_memory_size pageHeader elementSize b := by
  rw [Fiber_Profiler_Deque_memory_size_eq, Fiber_Profiler_Deque_memory_size_eq]
  have ha : a.pages.map (fun p => pageHeader + p.capacity * elementSize) =
      (a.pages.map (·.capacity)).map (fun c => pageHeader + c * elementSize) := by
    rw [List.map_map]
    rfl
  have hb : b.pages.map (fun p => pageHeader + p.capacity * elementSize) =
      (b.pages.map (·.capacity)).map (fun c => pageHeader + c * elementSize) := by
    rw [List.map_map]
    rfl
  rw [ha, hb, h]

/-- One successful `push` on a well-formed deque: the result is well-formed,
holds one more element, and allocates a page (appending capacity `C` to the
page-capacity profile) exactly when every page was full. -/
theorem Fiber_Profiler_Deque_push_wf {C : Nat} {d : Fiber_Profiler_Deque}
    (hwf : Fiber_Profiler_Deque_Wf C d) (hC : 0 < C) :
    ∃ d', Fiber_Profiler_Deque_push C d true = some d' ∧
      Fiber_Profiler_Deque_Wf C d' ∧
      Fiber_Profiler_Deque_totalSize d' = Fiber_Profiler_Deque_totalSize d + 1 ∧
      d'.pages.map (·.capacity) =
        (if Fiber_Profiler_Deque_totalSize d = C * d.pages.length
         then d.pages.map (·.capacity) ++ [C]
         else d.pages.map (·.capacity)) := by
  by_cases hnil : d.pages = []
  · refine ⟨⟨[⟨1, C⟩], 0⟩, ?_, ?_, ?_, ?_⟩
    · unfold Fiber_Profiler_Deque_push
      simp [hnil]
    · constructor
      · intro p hp
        simp at hp
        rw [hp]
      · exact Or.inr (by simp)
      · intro i p hi _
        have hi' : i < 0 := hi
        exact absurd hi' (by omega)
      · intro i p hi hp
        have hi' : 0 < i := hi
        cases i with
        | zero => exact absurd hi' (by omega)
        | succ j => exact absurd hp (by simp)
      · intro p hp
        cases hp
        exact hC
    · simp [Fiber_Profiler_Deque_totalSize, hnil]
    · simp [Fiber_Profiler_Deque_totalSize, hnil]
  · have hlt : d.tailIndex < d.pages.length := hwf.tail_lt.resolve_left hnil
    have hemp : d.pages.isEmpty = false := by simp [List.isEmpty_iff, hnil]
    obtain ⟨page, hpage⟩ : ∃ p, d.pages.get? d.tailIndex = some p := by
      rw [List.get?_eq_getElem?]
      exact ⟨_, List.getElem?_eq_getElem hlt⟩
    have hcapC : page.capacity = C := Fiber_Profiler_Deque_Wf_cap_get? hwf hpage
    have hsum : Fiber_Profiler_Deque_totalSize d = C * d.tailIndex + page.size := by
      unfold Fiber_Profiler_Deque_totalSize
      refine sizes_sum_of_partition C d.pages d.tailIndex page ?_ hwf.empty_after hpage
      intro i q hi hq
      rw [hwf.full_before i q hi hq]
      exact Fiber_Profiler_Deque_Wf_cap_get? hwf hq
    by_cases hfull : page.size = page.capacity
    · by_cases hnext : d.tailIndex + 1 < d.pages.length
      · obtain ⟨q, hq⟩ : ∃ q, d.pages.get? (d.tailIndex + 1) = some q := by
          rw [List.get?_eq_getElem?]
          exact ⟨_, List.getElem?_eq_getElem hnext⟩
        have hq0 : q.size = 0 := hwf.empty_after _ q (by omega) hq
        refine ⟨⟨listModify d.pages (d.tailIndex + 1)
            (fun p => { p with size := p.size + 1 }), d.tailIndex + 1⟩, ?_, ?_, ?_, ?_⟩
        · unfold Fiber_Profiler_Deque_push
          rw [hemp, hpage]
          simp [hfull, hnext]
        · constructor
          · exact cap_eq_of_map_capacity
              (listModify_map_capacity _ _ _ (fun a => rfl)) hwf.cap_eq
          · exact Or.inr (by rw [listModify_length]; exact hnext)
          · intro i p hi hp
            have hi0 : i < d.tailIndex + 1 := hi
            rw [listModify_get?_ne _ (by omega) _] at hp
            rcases Nat.lt_succ_iff_lt_or_eq.mp hi0 with hi' | hi'
            · exact hwf.full_before i p hi' hp
            · subst hi'
              rw [hpage] at hp
              cases hp
              exact hfull
          · intro i p hi hp
            have hi0 : d.tailIndex + 1 < i := hi
            rw [listModify_get?_ne _ (by omega) _] at hp
            exact hwf.empty_after i p (by omega) hp
          · intro p hp
            rw [listModify_get?_self hq] at hp
            cases hp
            show q.size + 1 ≤ q.capacity
            rw [hq0, Fiber_Profiler_Deque_Wf_cap_get? hwf hq]
            omega
        · exact sizes_sum_listModify_succ _ _ q hq
        · have hcapmap : (listModify d.pages (d.tailIndex + 1)
              (fun p => { p with size := p.size + 1 })).map (·.capacity) =
              d.pages.map (·.capacity) :=
            listModify_map_capacity _ _ _ (fun a => rfl)
          have hne : ¬ Fiber_Profiler_Deque_totalSize d = C * d.pages.length := by
            intro heq
            have h1 : Fiber_Profiler_Deque_totalSize d = C * (d.tailIndex + 1) := by
              rw [hsum, hfull, hcapC]
              ring
            rw [h1] at heq
            have := Nat.eq_of_mul_eq_mul_left hC heq
            omega
          show (listModify d.pages (d.tailIndex + 1)
              (fun p => { p with size := p.size + 1 })).map (·.capacity) = _
          rw [hcapmap, if_neg hne]
      · have hteq : d.tailIndex + 1 = d.pages.length := by omega
        refine ⟨⟨d.pages ++ [⟨1, C⟩], d.tailIndex + 1⟩, ?_, ?_, ?_, ?_⟩
        · unfold Fiber_Profiler_Deque_push
          rw [hemp, hpage]
          simp [hfull, hnext]
        · constructor
          · intro p hp
            rcases List.mem_append.mp hp with hp' | hp'
            · exact hwf.cap_eq p hp'
            · simp at hp'
              rw [hp']
          · exact Or.inr (by simp [hteq])
          · intro i p hi hp
            have hi0 : i < d.tailIndex + 1 := hi
            rw [List.get?_append (by omega)] at hp
            rcases Nat.lt_succ_iff_lt_or_eq.mp hi0 with hi' | hi'
            · exact hwf.full_before i p hi' hp
            · subst hi'
              rw [hpage] at hp
              cases hp
              exact hfull
          · intro i p hi hp
            have hi0 : d.tailIndex + 1 < i := hi
            have : (d.pages ++ [(⟨1, C⟩ : Fiber_Profiler_Deque_Page)]).get? i = none := by
              rw [List.get?_eq_none]
              simp
              omega
            rw [this] at hp
            exact Option.noConfusion hp
          · intro p hp
            have hp0 : (d.pages ++ [(⟨1, C⟩ : Fiber_Profiler_Deque_Page)]).get?
                (d.tailIndex + 1) = some p := hp
            rw [hteq, List.get?_concat_length] at hp0
            cases hp0
            exact hC
        · unfold Fiber_Profiler_Deque_totalSize
          simp
        · show (d.pages ++ [(⟨1, C⟩ : Fiber_Profiler_Deque_Page)]).map (·.capacity) = _
          rw [if_pos]
          · rw [List.map_append]
            rfl
          · rw [hsum, hfull, hcapC, ← hteq]
            ring
    · have hlt2 : page.size < page.capacity :=
        Nat.lt_of_le_of_ne (hwf.size_le page hpage) hfull
      refine ⟨⟨listModify d.pages d.tailIndex
          (fun p => { p with size := p.size + 1 }), d.tailIndex⟩, ?_, ?_, ?_, ?_⟩
      · unfold Fiber_Profiler_Deque_push
        rw [hemp, hpage]
        simp [hfull]
      · constructor
        · exact cap_eq_of_map_capacity
            (listModify_map_capacity _ _ _ (fun a => rfl)) hwf.cap_eq
        · exact Or.inr (by rw [listModify_length]; exact hlt)
        · intro i p hi hp
          have hi0 : i < d.tailIndex := hi
          rw [listModify_get?_ne _ (by omega) _] at hp
          exact hwf.full_before i p hi0 hp
        · intro i p hi hp
          have hi0 : d.tailIndex < i := hi
          rw [listModify_get?_ne _ (by omega) _] at hp
          exact hwf.empty_after i p hi0 hp
        · intro p hp
          rw [listModify_get?_self hpage] at hp
          cases hp
          show page.size + 1 ≤ page.capacity
          omega
      · exact sizes_sum_listModify_succ _ _ page hpage
      · have hcapmap : (listModify d.pages d.tailIndex
            (fun p => { p with size := p.size + 1 })).map (·.capacity) =
            d.pages.map (·.capacity) :=
          listModify_map_capacity _ _ _ (fun a => rfl)
        have hne : ¬ Fiber_Profiler_Deque_totalSize d = C * d.pages.length := by
          intro heq
          have hps : page.size < C := hcapC ▸ hlt2
          have h1 : C * d.tailIndex + page.size < C * (d.tailIndex + 1) := by
            rw [Nat.mul_succ]
            omega
          have h2 : C * (d.tailIndex + 1) ≤ C * d.pages.length :=
            Nat.mul_le_mul_left C (by omega)
          rw [hsum] at heq
          omega
        show (listModify d.pages d.tailIndex
            (fun p => { p with size := p.size + 1 })).map (·.capacity) = _
        rw [hcapmap, if_neg hne]

theorem Fiber_Profiler_Deque_pushN_wf {C : Nat} (hC : 0 < C) :
    ∀ (n : Nat) (d : Fiber_Profiler_Deque), Fiber_Profiler_Deque_Wf C d →
      Fiber_Profiler_Deque_Wf C (Fiber_Profiler_Deque_pushN C d n) ∧
      Fiber_Profiler_Deque_totalSize (Fiber_Profiler_Deque_pushN C d n) =
        Fiber_Profiler_Deque_totalSize d + n := by
  intro n
  induction n with
  | zero =>
    intro d h
    exact ⟨h, rfl⟩
  | succ k ih =>
    intro d h
    obtain ⟨hwfk, htotk⟩ := ih d h
    obtain ⟨d', hpush, hwf2, htot2, _⟩ := Fiber_Profiler_Deque_push_wf hwfk hC
    have hstep : Fiber_Profiler_Deque_pushN C d (k + 1) = d' := by
      unfold Fiber_Profiler_Deque_pushN
      rw [hpush]
    rw [hstep]
    exact ⟨hwf2, by rw [htot2, htotk]; ring⟩

/-- While spare capacity remains, `push` never allocates: `n` pushes into a
well-formed deque with at least `n` free slots reuse the existing pages (the
page count and the capacity profile are unchanged). -/
theorem Fiber_Profiler_Deque_pushN_no_alloc {C : Nat} (hC : 0 < C) :
    ∀ (n : Nat) (d : Fiber_Profiler_Deque), Fiber_Profiler_Deque_Wf C d →
      Fiber_Profiler_Deque_totalSize d + n ≤ C * d.pages.length →
      Fiber_Profiler_Deque_Wf C (Fiber_Profiler_Deque_pushN C d n) ∧
      Fiber_Profiler_Deque_totalSize (Fiber_Profiler_Deque_pushN C d n) =
        Fiber_Profiler_Deque_totalSize d + n ∧
      (Fiber_Profiler_Deque_pushN C d n).pages.map (·.capacity) =
        d.pages.map (·.capacity) ∧
      (Fiber_Profiler_Deque_pushN C d n).pages.length = d.pages.length := by
  intro n
  induction n with
  | zero =>
    intro d h _
    exact ⟨h, rfl, rfl, rfl⟩
  | succ k ih =>
    intro d h hle
    obtain ⟨hwfk, htotk, hcapk, hlenk⟩ := ih d h (by omega)
    obtain ⟨d', hpush, hwf2, htot2, hcaps2⟩ := Fiber_Profiler_Deque_push_wf hwfk hC
    have hcond : ¬ Fiber_Profiler_Deque_totalSize (Fiber_Profiler_Deque_pushN C d k) =
        C * (Fiber_Profiler_Deque_pushN C d k).pages.length := by
      rw [htotk, hlenk]
      omega
    rw [if_neg hcond] at hcaps2
    have hstep : Fiber_Profiler_Deque_pushN C d (k + 1) = d' := by
      unfold Fiber_Profiler_Deque_pushN
      rw [hpush]
    rw [hstep]
    refine ⟨hwf2, by rw [htot2, htotk]; ring, by rw [hcaps2, hcapk], ?_⟩
    have := congrArg List.length (hcaps2.trans hcapk)
    simpa [List.length_map] using this

theorem Fiber_Profiler_Deque_truncPages_length (t : Nat) :
    ∀ (l : List Fiber_Profiler_Deque_Page) (k : Nat),
      (Fiber_Profiler_Deque_truncPages t l k).length = l.length := by
  intro l
  induction l with
  | nil => intro k; rfl
  | cons a rest ih =>
    intro k
    simp [Fiber_Profiler_Deque_truncPages, ih]

theorem Fiber_Profiler_Deque_truncPages_map_capacity (t : Nat) :
    ∀ (l : List Fiber_Profiler_Deque_Page) (k : Nat),
      (Fiber_Profiler_Deque_truncPages t l k).map (·.capacity) = l.map (·.capacity) := by
  intro l
  induction l with
  | nil => intro k; rfl
  | cons a rest ih =>
    intro k
    unfold Fiber_Profiler_Deque_truncPages
    by_cases hk : k ≤ t <;> simp [hk, ih]

theorem Fiber_Profiler_Deque_truncPages_size_zero (t : Nat) :
    ∀ (l : List Fiber_Profiler_Deque_Page) (k : Nat),
      (∀ j p, l.get? j = some p → t < k + j → p.size = 0) →
      ∀ p ∈ Fiber_Profiler_Deque_truncPages t l k, p.size = 0 := by
  intro l
  induction l with
  | nil =>
    intro k _ p hp
    exact absurd hp (by simp [Fiber_Profiler_Deque_truncPages])
  | cons a rest ih =>
    intro k hz p hp
    unfold Fiber_Profiler_Deque_truncPages at hp
    rcases List.mem_cons.mp hp with hp' | hp'
    · by_cases hk : k ≤ t
      · rw [hp']
        simp [hk]
      · rw [hp']
        simp only [hk, if_false]
        exact hz 0 a rfl (by omega)
    · exact ih (k + 1) (fun j p hj ht => hz (j + 1) p (by simpa using hj) (by omega)) p hp'

theorem Fiber_Profiler_Deque_truncFreed_eq (t : Nat) :
    ∀ (l : List Fiber_Profiler_Deque_Page) (k : Nat),
      (∀ j p, l.get? j = some p → t < k + j → p.size = 0) →
      Fiber_Profiler_Deque_truncFreed t l k = (l.map (·.size)).sum := by
  intro l
  induction l with
  | nil => intro k _; rfl
  | cons a rest ih =>
    intro k hz
    unfold Fiber_Profiler_Deque_truncFreed
    rw [ih (k + 1) (fun j p hj ht => hz (j + 1) p (by simpa using hj) (by omega))]
    by_cases hk : k ≤ t
    · simp [hk]
    · rw [if_neg hk]
      have ha : a.size = 0 := hz 0 a rfl (by omega)
      simp [ha]

theorem Fiber_Profiler_Deque_truncate_wf {C : Nat} {d : Fiber_Profiler_Deque}
    (hwf : Fiber_Profiler_Deque_Wf C d) :
    Fiber_Profiler_Deque_Wf C (Fiber_Profiler_Deque_truncate d) ∧
    Fiber_Profiler_Deque_totalSize (Fiber_Profiler_Deque_truncate d) = 0 ∧
    (∀ p ∈ (Fiber_Profiler_Deque_truncate d).pages, p.size = 0) := by
  have hzero : ∀ p ∈ Fiber_Profiler_Deque_truncPages d.tailIndex d.pages 0, p.size = 0 := by
    refine Fiber_Profiler_Deque_truncPages_size_zero d.tailIndex d.pages 0 ?_
    intro j p hj ht
    exact hwf.empty_after j p (by omega) hj
  refine ⟨?_, ?_, hzero⟩
  · constructor
    · exact cap_eq_of_map_capacity
        (Fiber_Profiler_Deque_truncPages_map_capacity d.tailIndex d.pages 0) hwf.cap_eq
    · rcases hwf.tail_lt with hnil | hlt
      · exact Or.inl (by simp [Fiber_Profiler_Deque_truncate, hnil,
          Fiber_Profiler_Deque_truncPages])
      · refine Or.inr ?_
        show 0 < (Fiber_Profiler_Deque_truncPages d.tailIndex d.pages 0).length
        rw [Fiber_Profiler_Deque_truncPages_length]
        omega
    · intro i p hi _
      have hi' : i < 0 := hi
      exact absurd hi' (by omega)
    · intro i p _ hp
      exact hzero p (List.get?_mem hp)
    · intro p hp
      rw [hzero p (List.get?_mem hp)]
      exact Nat.zero_le _
  · unfold Fiber_Profiler_Deque_totalSize
    refine sizes_sum_zero _ ?_
    intro i q hq
    exact hzero q (List.get?_mem hq)

/-- C7: for any `N` pushes followed by `truncate()`, truncation resets every
page's logical size to zero without freeing any page (the page count and the
per-page capacities are retained, and each removed element's finaliser is
invoked exactly once — `truncate_freed` counts `N` invocations) and rewinds
the tail pointer to the head page; `memory_size` after truncate equals the
retained page capacity (unchanged from before, and nonzero whenever `N > 0`
and the page header occupies memory); and a subsequent `N` pushes reuse the
existing pages before allocating new ones — the page count does not
increase. -/
theorem Fiber_Profiler_Deque_round_trip (C N pageHeader elementSize : Nat)
    (hC : 0 < C) (hhdr : 0 < pageHeader) :
    (∀ p ∈ (Fiber_Profiler_Deque_truncate
        (Fiber_Profiler_Deque_pushN C Fiber_Profiler_Deque_empty N)).pages, p.size = 0) ∧
    (Fiber_Profiler_Deque_truncate
        (Fiber_Profiler_Deque_pushN C Fiber_Profiler_Deque_empty N)).tailIndex = 0 ∧
    (Fiber_Profiler_Deque_truncate
        (Fiber_Profiler_Deque_pushN C Fiber_Profiler_Deque_empty N)).pages.length =
      (Fiber_Profiler_Deque_pushN C Fiber_Profiler_Deque_empty N).pages.length ∧
    Fiber_Profiler_Deque_truncate_freed
        (Fiber_Profiler_Deque_pushN C Fiber_Profiler_Deque_empty N) = N ∧
    Fiber_Profiler_Deque_memory_size pageHeader elementSize
        (Fiber_Profiler_Deque_truncate
          (Fiber_Profiler_Deque_pushN C Fiber_Profiler_Deque_empty N)) =
      Fiber_Profiler_Deque_memory_size pageHeader elementSize
        (Fiber_Profiler_Deque_pushN C Fiber_Profiler_Deque_empty N) ∧
    (0 < N → 0 < Fiber_Profiler_Deque_memory_size pageHeader elementSize
        (Fiber_Profiler_Deque_truncate
          (Fiber_Profiler_Deque_pushN C Fiber_Profiler_Deque_empty N))) ∧
    (Fiber_Profiler_Deque_pushN C
        (Fiber_Profiler_Deque_truncate
          (Fiber_Profiler_Deque_pushN C Fiber_Profiler_Deque_empty N)) N).pages.length =
      (Fiber_Profiler_Deque_pushN C Fiber_Profiler_Deque_empty N).pages.length := by
  obtain ⟨hwfd, htotd⟩ :=
    Fiber_Profiler_Deque_pushN_wf hC N Fiber_Profiler_Deque_empty
      (Fiber_Profiler_Deque_Wf_empty C)
  have htotd' : Fiber_Profiler_Deque_totalSize
      (Fiber_Profiler_Deque_pushN C Fiber_Profiler_Deque_empty N) = N := by
    rw [htotd]
    simp [Fiber_Profiler_Deque_totalSize, Fiber_Profiler_Deque_empty]
  obtain ⟨hwft, htott, hzero⟩ := Fiber_Profiler_Deque_truncate_wf hwfd
  have hlen : (Fiber_Profiler_Deque_truncate
      (Fiber_Profiler_Deque_pushN C Fiber_Profiler_Deque_empty N)).pages.length =
      (Fiber_Profiler_Deque_pushN C Fiber_Profiler_Deque_empty N).pages.length :=
    Fiber_Profiler_Deque_truncPages_length _ _ _
  have hcaps : (Fiber_Profiler_Deque_truncate
      (Fiber_Profiler_Deque_pushN C Fiber_Profiler_Deque_empty N)).pages.map (·.capacity) =
      (Fiber_Profiler_Deque_pushN C Fiber_Profiler_Deque_empty N).pages.map (·.capacity) :=
    Fiber_Profiler_Deque_truncPages_map_capacity _ _ _
  have hNle : N ≤ C * (Fiber_Profiler_Deque_pushN C Fiber_Profiler_Deque_empty N).pages.length := by
    have := Fiber_Profiler_Deque_totalSize_le hwfd
    rwa [htotd'] at this
  refine ⟨hzero, rfl, hlen, ?_, ?_, ?_, ?_⟩
  · unfold Fiber_Profiler_Deque_truncate_freed
    rw [Fiber_Profiler_Deque_truncFreed_eq _ _ _ ?_]
    · exact htotd'
    · intro j p hj ht
      exact hwfd.empty_after j p (by omega) hj
  · exact Fiber_Profiler_Deque_memory_size_congr pageHeader elementSize hcaps
  · intro hN
    rw [Fiber_Profiler_Deque_memory_size_congr pageHeader elementSize hcaps]
    have hne : (Fiber_Profiler_Deque_pushN C Fiber_Profiler_Deque_empty N).pages ≠ [] := by
      intro hempty
      rw [Fiber_Profiler_Deque_totalSize, hempty] at htotd'
      simp at htotd'
      omega
    rw [Fiber_Profiler_Deque_memory_size_eq]
    cases hd : (Fiber_Profiler_Deque_pushN C Fiber_Profiler_Deque_empty N).pages with
    | nil => exact absurd hd hne
    | cons a rest =>
      simp only [List.map_cons, List.sum_cons]
      omega
  · obtain ⟨_, _, _, hlen2⟩ :=
      Fiber_Profiler_Deque_pushN_no_alloc hC N
        (Fiber_Profiler_Deque_truncate
          (Fiber_Profiler_Deque_pushN C Fiber_Profiler_Deque_empty N)) hwft
        (by rw [htott, hlen]; omega)
    rw [hlen2, hlen]

/-- Witness for C7 at concrete values: capacity 2, five pushes (three pages),
truncate, five more pushes — the page count stays 3, `memory_size` is
retained, and five finaliser invocations occur. -/
theorem Fiber_Profiler_Deque_round_trip_witness :
    (Fiber_Profiler_Deque_pushN 2 Fiber_Profiler_Deque_empty 5).pages.length = 3 ∧
    Fiber_Profiler_Deque_truncate_freed
      (Fiber_Profiler_Deque_pushN 2 Fiber_Profiler_Deque_empty 5) = 5 ∧
    Fiber_Profiler_Deque_memory_size 1 1
      (Fiber_Profiler_Deque_truncate
        (Fiber_Profiler_Deque_pushN 2 Fiber_Profiler_Deque_empty 5)) =
      Fiber_Profiler_Deque_memory_size 1 1
        (Fiber_Profiler_Deque_pushN 2 Fiber_Profiler_Deque_empty 5) ∧
    (Fiber_Profiler_Deque_pushN 2
        (Fiber_Profiler_Deque_truncate
          (Fiber_Profiler_Deque_pushN 2 Fiber_Profiler_Deque_empty 5)) 5).pages.length =
      (Fiber_Profiler_Deque_pushN 2 Fiber_Profiler_Deque_empty 5).pages.length := by
  have h := Fiber_Profiler_Deque_round_trip 2 5 1 1 (by decide) (by decide)
  exact ⟨by decide, h.2.2.2.1, h.2.2.2.2.1, h.2.2.2.2.2.2⟩

/-!
## C8 — nesting: helpers
-/

theorem listModify_concat_get?_mid (l : List α) (a : α) (g f : α → α) {p : Nat}
    (hp : p < l.length) {b : α} (hb : l.get? p = some b) :
    (listModify (listModify (l ++ [a]) p g) l.length f).get? p = some (g b) := by
  rw [listModify_get?_ne _ (by omega) _]
  have hbase : (l ++ [a]).get? p = some b := by
    rw [List.get?_append hp]
    exact hb
  exact listModify_get?_self hbase g

theorem listModify_concat_get?_other (l : List α) (a : α) (g f : α → α) {p j : Nat}
    (hpj : p ≠ j) (hj : j < l.length) :
    (listModify (listModify (l ++ [a]) p g) l.length f).get? j = l.get? j := by
  rw [listModify_get?_ne _ (by omega) _, listModify_get?_ne _ hpj _]
  exact List.get?_append hj

/-- The call-class branch of the callback, characterised by projections: one
frame appended recording the pre-increment session nesting, the parent's
child counter bumped, everything else untouched. -/
theorem Fiber_Profiler_Capture_call_event (cap : Fiber_Profiler_Capture)
    (flag : Fiber_Profiler_EventFlag) (now : Int)
    (hcap : cap.capture = true) (hflag : event_flag_call_p flag = true)
    (hcur : ∀ p, cap.current = some p → p < cap.calls.length) :
    ∀ cap', Fiber_Profiler_Capture_callback cap flag now true = some cap' →
      cap'.nesting = cap.nesting + 1 ∧
      cap'.nesting_minimum = cap.nesting_minimum ∧
      cap'.current = some cap.calls.length ∧
      cap'.calls.length = cap.calls.length + 1 ∧
      cap'.switch_time = cap.switch_time ∧
      cap'.filter_threshold = cap.filter_threshold ∧
      cap'.capture = cap.capture ∧
      cap'.calls.get? cap.calls.length =
        some { enter_time := now
               duration := 0
               nesting := cap.nesting
               children := 0
               filtered := 0
               event_flag := flag
               parent := cap.current } ∧
      (∀ p pc, cap.current = some p → cap.calls.get? p = some pc →
        cap'.calls.get? p = some { pc with children := pc.children + 1 }) ∧
      (∀ j, j < cap.calls.length → cap.current ≠ some j →
        cap'.calls.get? j = cap.calls.get? j) := by
  intro cap' h
  unfold Fiber_Profiler_Capture_callback at h
  rw [if_neg (by simp [hcap]), if_pos hflag] at h
  unfold Fiber_Profiler_Capture_Call_new at h
  simp only [if_true, ite_true] at h
  cases hc : cap.current with
  | none =>
    rw [hc] at h
    simp only [] at h
    rw [listModify_concat] at h
    cases h
    refine ⟨rfl, rfl, rfl, by simp, rfl, rfl, rfl, ?_, ?_, ?_⟩
    · rw [List.get?_concat_length]
      simp [Fiber_Profiler_Capture_Call_init, hc]
    · intro p pc hp
      exact absurd hp (by simp)
    · intro j hj _
      exact List.get?_append hj
  | some p =>
    rw [hc] at h
    have hplt : p < cap.calls.length := hcur p hc
    simp only [] at h
    cases h
    refine ⟨rfl, rfl, rfl, by simp [listModify_length], rfl, rfl, rfl, ?_, ?_, ?_⟩
    · rw [listModify_concat_get?_last _ _ _ _ hplt]
      simp [Fiber_Profiler_Capture_Call_init, hc]
    · intro q pc hq hgq
      have hqp : q = p := (Option.some.inj hq).symm
      subst hqp
      rw [listModify_concat_get?_mid _ _ _ _ hplt hgq]
    · intro j hj hne
      have hjp : p ≠ j := by
        intro hh
        exact hne (by rw [hh])
      exact listModify_concat_get?_other _ _ _ _ hjp hj

/-- When the filter keeps the frame, `Call_finish` changes nothing. -/
theorem Fiber_Profiler_Capture_Call_finish_keep (cap : Fiber_Profiler_Capture) (idx : Nat)
    (h : (Fiber_Profiler_Capture_Call_finish cap idx).2 = none) :
    (Fiber_Profiler_Capture_Call_finish cap idx).1 = cap := by
  cases hg : cap.calls.get? idx with
  | none =>
    unfold Fiber_Profiler_Capture_Call_finish
    rw [hg]
  | some call =>
    by_cases hr : event_flag_return_p call.event_flag
    · unfold Fiber_Profiler_Capture_Call_finish
      rw [hg]
      simp [hr]
    · by_cases hd : call.duration < cap.filter_threshold
      · by_cases ht : idx + 1 = cap.calls.length
        · exfalso
          have hpop := (Fiber_Profiler_Capture_Call_finish_pop cap idx call hg
            (by simpa using hr) hd ht).1
          rw [h] at hpop
          exact Option.noConfusion hpop
        · unfold Fiber_Profiler_Capture_Call_finish
          rw [hg]
          simp [hr, hd, ht]
      · unfold Fiber_Profiler_Capture_Call_finish
        rw [hg]
        simp [hr, hd]

/-- If `Call_finish` popped an element, the discard conditions held. -/
theorem Fiber_Profiler_Capture_Call_finish_pop_inversion (cap : Fiber_Profiler_Capture)
    (idx : Nat) (v : Fiber_Profiler_Capture_Call)
    (h : (Fiber_Profiler_Capture_Call_finish cap idx).2 = some v) :
    ∃ call, cap.calls.get? idx = some call ∧
      event_flag_return_p call.event_flag = false ∧
      call.duration < cap.filter_threshold ∧
      idx + 1 = cap.calls.length := by
  cases hg : cap.calls.get? idx with
  | none =>
    exfalso
    unfold Fiber_Profiler_Capture_Call_finish at h
    rw [hg] at h
    exact Option.noConfusion h
  | some call =>
    by_cases hr : event_flag_return_p call.event_flag
    · exfalso
      unfold Fiber_Profiler_Capture_Call_finish at h
      rw [hg] at h
      simp [hr] at h
    · by_cases hd : call.duration < cap.filter_threshold
      · by_cases ht : idx + 1 = cap.calls.length
        · exact ⟨call, rfl, by simpa using hr, hd, ht⟩
        · exfalso
          unfold Fiber_Profiler_Capture_Call_finish at h
          rw [hg] at h
          simp [hr, hd, ht] at h
      · exfalso
        unfold Fiber_Profiler_Capture_Call_finish at h
        rw [hg] at h
        simp [hr, hd] at h

/-- `Call_finish` preserves the structural invariant (the callers have already
moved `current` off the frame being finished). -/
theorem Fiber_Profiler_Capture_Call_finish_inv {cap : Fiber_Profiler_Capture} {idx : Nat}
    (hinv : Fiber_Profiler_Capture_Inv cap) (hcur : cap.current ≠ some idx) :
    Fiber_Profiler_Capture_Inv (Fiber_Profiler_Capture_Call_finish cap idx).1 := by
  cases hv : (Fiber_Profiler_Capture_Call_finish cap idx).2 with
  | none =>
    rw [Fiber_Profiler_Capture_Call_finish_keep cap idx hv]
    exact hinv
  | some v =>
    obtain ⟨call, hg, hr, hd, ht⟩ :=
      Fiber_Profiler_Capture_Call_finish_pop_inversion cap idx v hv
    obtain ⟨_, hlen, _, hcur', hparent, huntouched⟩ :=
      Fiber_Profiler_Capture_Call_finish_pop cap idx call hg hr hd ht
    have hrel : ∀ i c, (Fiber_Profiler_Capture_Call_finish cap idx).1.calls.get? i = some c →
        ∃ c0, cap.calls.get? i = some c0 ∧ c.parent = c0.parent ∧ c.nesting = c0.nesting := by
      intro i c hc
      have hilt : i < idx := by
        have := get?_some_lt_length hc
        rwa [hlen] at this
      cases hpar : call.parent with
      | none =>
        rw [huntouched i hilt (by simp [hpar])] at hc
        exact ⟨c, hc, rfl, rfl⟩
      | some q =>
        by_cases hiq : i = q
        · subst hiq
          have hqlt : i < idx := hinv.parent_lt idx call i hg hpar
          obtain ⟨pc, hpc⟩ : ∃ pc, cap.calls.get? i = some pc := by
            rw [List.get?_eq_getElem?]
            exact ⟨_, List.getElem?_eq_getElem (by omega)⟩
          rw [hparent i pc hpar hqlt hpc] at hc
          cases hc
          exact ⟨pc, hpc, rfl, rfl⟩
        · rw [huntouched i hilt (by simp [hpar, Ne.symm hiq])] at hc
          exact ⟨c, hc, rfl, rfl⟩
    have hcurrent : (Fiber_Profiler_Capture_Call_finish cap idx).1.current = cap.current := by
      rw [hcur', if_neg hcur]
    have hnesting : (Fiber_Profiler_Capture_Call_finish cap idx).1.nesting = cap.nesting :=
      (Fiber_Profiler_Capture_Call_finish_sameSession cap
        idx).2.2.2.2.2.2.2.2.2.2.2.2.2.1
    constructor
    · intro i c p hi hp
      obtain ⟨c0, h0, hpar0, _⟩ := hrel i c hi
      exact hinv.parent_lt i c0 p h0 (hpar0 ▸ hp)
    · intro i hcu
      rw [hcurrent] at hcu
      have hlt := hinv.current_lt i hcu
      have hne : i ≠ idx := fun hh => hcur (hh ▸ hcu)
      rw [hlen]
      omega
    · intro i c hcu hci
      rw [hcurrent] at hcu
      obtain ⟨c0, h0, _, hnest0⟩ := hrel i c hci
      rw [hnesting, hnest0]
      exact hinv.current_nesting i c0 hcu h0
    · intro i c p pc hci hp hpci
      obtain ⟨c0, h0, hpar0, hnest0⟩ := hrel i c hci
      obtain ⟨pc0, hp0, _, hpnest0⟩ := hrel p pc hpci
      rw [hnest0, hpnest0]
      exact hinv.parent_nesting i c0 p pc0 h0 (hpar0 ▸ hp) hp0

/-- The return-class branch of the callback with a current frame: compute the
frame's duration against `now`, move `current` to the parent, decrement the
session nesting (tracking the minimum), then run the filter. -/
theorem Fiber_Profiler_Capture_return_event_eq (cap : Fiber_Profiler_Capture)
    (flag : Fiber_Profiler_EventFlag) (now : Int) (idx : Nat)
    (call : Fiber_Profiler_Capture_Call)
    (hcap : cap.capture = true) (hret : event_flag_return_p flag = true)
    (hcur : cap.current = some idx) (h : cap.calls.get? idx = some call) :
    Fiber_Profiler_Capture_callback cap flag now true =
      some (Fiber_Profiler_Capture_Call_finish
        { cap with
            calls := listModify cap.calls idx
              (fun c => { c with duration := now - c.enter_time })
            current := call.parent
            nesting := cap.nesting - 1
            nesting_minimum := min (cap.nesting - 1) cap.nesting_minimum } idx).1 := by
  have hnc := event_flag_not_call_of_return hret
  unfold Fiber_Profiler_Capture_callback
  rw [if_neg (by simp [hcap]), if_neg (by simp [hnc]), if_pos hret, hcur]
  simp only []
  rw [h]

/-- Processing any call-class or return-class event preserves the structural
invariant of the capture state machine. -/
theorem Fiber_Profiler_Capture_callback_inv (cap : Fiber_Profiler_Capture)
    (flag : Fiber_Profiler_EventFlag) (now : Int)
    (hinv : Fiber_Profiler_Capture_Inv cap)
    (hcr : event_flag_call_p flag = true ∨ event_flag_return_p flag = true) :
    ∀ cap', Fiber_Profiler_Capture_callback cap flag now true = some cap' →
      Fiber_Profiler_Capture_Inv cap' := by
  intro cap' h
  by_cases hcap : cap.capture = true
  case neg =>
    have hc0 : cap.capture = false := by
      cases hcc : cap.capture
      · rfl
      · exact absurd hcc hcap
    unfold Fiber_Profiler_Capture_callback at h
    rw [if_pos (by rw [hc0]; rfl)] at h
    cases h
    exact hinv
  case pos =>
    rcases hcr with hcall | hret
    · obtain ⟨hn, _, hcur', hlen, _, _, _, hnew, hparent, huntouched⟩ :=
        Fiber_Profiler_Capture_call_event cap flag now hcap hcall hinv.current_lt cap' h
      have hrel : ∀ i c, cap'.calls.get? i = some c →
          (i = cap.calls.length ∧
            c = { enter_time := now, duration := 0, nesting := cap.nesting, children := 0,
                  filtered := 0, event_flag := flag, parent := cap.current }) ∨
          (i < cap.calls.length ∧
            ∃ c0, cap.calls.get? i = some c0 ∧ c.parent = c0.parent ∧
              c.nesting = c0.nesting) := by
        intro i c hi
        by_cases hilen : i = cap.calls.length
        · subst hilen
          rw [hnew] at hi
          exact Or.inl ⟨rfl, (Option.some.inj hi).symm⟩
        · have hlt : i < cap.calls.length := by
            have := get?_some_lt_length hi
            rw [hlen] at this
            omega
          refine Or.inr ⟨hlt, ?_⟩
          cases hq : cap.current with
          | none =>
            rw [huntouched i hlt (by simp [hq])] at hi
            exact ⟨c, hi, rfl, rfl⟩
          | some q =>
            by_cases hiq : i = q
            · subst hiq
              obtain ⟨pc, hpc⟩ : ∃ pc, cap.calls.get? i = some pc := by
                rw [List.get?_eq_getElem?]
                exact ⟨_, List.getElem?_eq_getElem hlt⟩
              rw [hparent i pc hq hpc] at hi
              cases hi
              exact ⟨pc, hpc, rfl, rfl⟩
            · rw [huntouched i hlt (by simp [hq, Ne.symm hiq])] at hi
              exact ⟨c, hi, rfl, rfl⟩
      constructor
      · intro i c p hi hp
        rcases hrel i c hi with ⟨hieq, hc⟩ | ⟨hlt, c0, h0, hpar0, _⟩
        · subst hieq
          rw [hc] at hp
          exact hinv.current_lt p hp
        · exact hinv.parent_lt i c0 p h0 (hpar0 ▸ hp)
      · intro i hcu
        rw [hcur'] at hcu
        cases hcu
        rw [hlen]
        omega
      · intro i c hcu hci
        rw [hcur'] at hcu
        cases hcu
        rw [hnew] at hci
        cases hci
        rw [hn]
      · intro i c p pc hci hp hpci
        rcases hrel i c hci with ⟨hieq, hc⟩ | ⟨hlt, c0, h0, hpar0, hnest0⟩
        · subst hieq
          rw [hc] at hp ⊢
          rcases hrel p pc hpci with ⟨hpeq, _⟩ | ⟨_, pc0, hp0, _, hpnest0⟩
          · exfalso
            have := hinv.current_lt p hp
            omega
          · show (cap.nesting = pc.nesting + 1)
            rw [hpnest0]
            exact hinv.current_nesting p pc0 hp hp0
        · rcases hrel p pc hpci with ⟨hpeq, _⟩ | ⟨_, pc0, hp0, _, hpnest0⟩
          · exfalso
            have := hinv.parent_lt i c0 p h0 (hpar0 ▸ hp)
            omega
          · rw [hnest0, hpnest0]
            exact hinv.parent_nesting i c0 p pc0 h0 (hpar0 ▸ hp) hp0
    · cases hcurq : cap.current with
      | none =>
        have heq := Fiber_Profiler_Capture_orphan_eq cap flag now hcap hcurq hret
        rw [heq] at h
        cases h
        constructor
        · intro i c p hi hp
          by_cases hilen : i = cap.calls.length
          · subst hilen
            rw [List.get?_concat_length] at hi
            cases hi
            exact absurd hp (by simp)
          · have hlt : i < cap.calls.length := by
              have := get?_some_lt_length hi
              simp at this
              omega
            rw [List.get?_append hlt] at hi
            exact hinv.parent_lt i c p hi hp
        · intro i hcu
          exact absurd hcu (by simp)
        · intro i c hcu _
          exact absurd hcu (by simp)
        · intro i c p pc hci hp hpci
          by_cases hilen : i = cap.calls.length
          · subst hilen
            rw [List.get?_concat_length] at hci
            cases hci
            exact absurd hp (by simp)
          · have hlt : i < cap.calls.length := by
              have := get?_some_lt_length hci
              simp at this
              omega
            rw [List.get?_append hlt] at hci
            have hplt : p < i := hinv.parent_lt i c p hci hp
            rw [List.get?_append (by omega)] at hpci
            exact hinv.parent_nesting i c p pc hci hp hpci
      | some idx =>
        obtain ⟨call, hcall⟩ : ∃ call, cap.calls.get? idx = some call := by
          rw [List.get?_eq_getElem?]
          exact ⟨_, List.getElem?_eq_getElem (hinv.current_lt idx hcurq)⟩
        rw [Fiber_Profiler_Capture_return_event_eq cap flag now idx call hcap hret hcurq hcall]
          at h
        cases h
        have hidxlt : idx < cap.calls.length := hinv.current_lt idx hcurq
        have hrel2 : ∀ i c,
            (listModify cap.calls idx
              (fun c => { c with duration := now - c.enter_time })).get? i = some c →
            ∃ c0, cap.calls.get? i = some c0 ∧ c.parent = c0.parent ∧
              c.nesting = c0.nesting := by
          intro i c hi
          by_cases hii : i = idx
          · subst hii
            rw [listModify_get?_self hcall] at hi
            cases hi
            exact ⟨call, hcall, rfl, rfl⟩
          · rw [listModify_get?_ne _ (Ne.symm hii) _] at hi
            exact ⟨c, hi, rfl, rfl⟩
        have hinv2 : Fiber_Profiler_Capture_Inv
            { cap with
                calls := listModify cap.calls idx
                  (fun c => { c with duration := now - c.enter_time })
                current := call.parent
                nesting := cap.nesting - 1
                nesting_minimum := min (cap.nesting - 1) cap.nesting_minimum } := by
          constructor
          · intro i c p hi hp
            obtain ⟨c0, h0, hpar0, _⟩ := hrel2 i c hi
            exact hinv.parent_lt i c0 p h0 (hpar0 ▸ hp)
          · intro i hcu
            have hcu' : call.parent = some i := hcu
            have : i < idx := hinv.parent_lt idx call i hcall hcu'
            show i < (listModify cap.calls idx
              (fun c => { c with duration := now - c.enter_time })).length
            rw [listModify_length]
            omega
          · intro i c hcu hci
            have hcu' : call.parent = some i := hcu
            have hiidx : i < idx := hinv.parent_lt idx call i hcall hcu'
            obtain ⟨c0, h0, _, hnest0⟩ := hrel2 i c hci
            have h1 : cap.nesting = call.nesting + 1 :=
              hinv.current_nesting idx call hcurq hcall
            have h2 : call.nesting = c0.nesting + 1 :=
              hinv.parent_nesting idx call i c0 hcall hcu' h0
            show cap.nesting - 1 = c.nesting + 1
            rw [hnest0]
            omega
          · intro i c p pc hci hp hpci
            obtain ⟨c0, h0, hpar0, hnest0⟩ := hrel2 i c hci
            obtain ⟨pc0, hp0, _, hpnest0⟩ := hrel2 p pc hpci
            rw [hnest0, hpnest0]
            exact hinv.parent_nesting i c0 p pc0 h0 (hpar0 ▸ hp) hp0
        refine Fiber_Profiler_Capture_Call_finish_inv hinv2 ?_
        show ¬ call.parent = some idx
        intro hh
        have := hinv.parent_lt idx call idx hcall hh
        omega

/-- C8: (1) every frame created by a call-class event with a non-null parent
records nesting equal to its parent's nesting + 1; (2) processing call/return
events preserves the structural invariant, so (1) applies throughout a
session; (3) the invariant holds right after `start()`; (4) on each
return-class event the session updates the minimum nesting value reached
(`min (nesting - 1) nesting_minimum`); (5) absolute nesting at report time is
the frame's relative nesting minus that minimum; and (6) for the concrete
sequence call(A), call(B), return(B), return(A) from an empty stack, A records
nesting 0 and B records nesting 1. -/
theorem Fiber_Profiler_Capture_nesting_spec :
    (∀ (cap : Fiber_Profiler_Capture) (flag : Fiber_Profiler_EventFlag) (now : Int)
        (p : Nat) (pc : Fiber_Profiler_Capture_Call),
      Fiber_Profiler_Capture_Inv cap → cap.capture = true →
      event_flag_call_p flag = true → cap.current = some p →
      cap.calls.get? p = some pc →
      ∀ cap', Fiber_Profiler_Capture_callback cap flag now true = some cap' →
        cap'.calls.get? cap.calls.length =
          some { enter_time := now
                 duration := 0
                 nesting := pc.nesting + 1
                 children := 0
                 filtered := 0
                 event_flag := flag
                 parent := some p }) ∧
    (∀ (cap : Fiber_Profiler_Capture) (flag : Fiber_Profiler_EventFlag) (now : Int),
      Fiber_Profiler_Capture_Inv cap →
      (event_flag_call_p flag = true ∨ event_flag_return_p flag = true) →
      ∀ cap', Fiber_Profiler_Capture_callback cap flag now true = some cap' →
        Fiber_Profiler_Capture_Inv cap') ∧
    (∀ (cap : Fiber_Profiler_Capture) (now : Int), cap.running = false →
      Fiber_Profiler_Capture_Inv (Fiber_Profiler_Capture_start cap now).2) ∧
    (∀ (cap : Fiber_Profiler_Capture) (flag : Fiber_Profiler_EventFlag) (now : Int),
      Fiber_Profiler_Capture_Inv cap → cap.capture = true →
      event_flag_return_p flag = true →
      ∀ cap', Fiber_Profiler_Capture_callback cap flag now true = some cap' →
        cap'.nesting_minimum = min (cap.nesting - 1) cap.nesting_minimum ∧
        cap'.nesting = cap.nesting - 1) ∧
    (∀ (cap : Fiber_Profiler_Capture) (call : Fiber_Profiler_Capture_Call),
      Fiber_Profiler_Capture_absolute_nesting cap call =
        call.nesting - cap.nesting_minimum) ∧
    ((Fiber_Profiler_Capture_run Fiber_Profiler_Capture_test_capturing
        [(.call, 3), (.call, 4), (.ret, 8), (.ret, 9)]).map
      (fun c => (c.calls.map (·.nesting), c.current)) = some ([0, 1], none)) := by
  refine ⟨?_, Fiber_Profiler_Capture_callback_inv, ?_, ?_, fun _ _ => rfl, by decide⟩
  · intro cap flag now p pc hinv hcap hcall hcur hpc cap' h
    obtain ⟨_, _, _, _, _, _, _, hnew, _, _⟩ :=
      Fiber_Profiler_Capture_call_event cap flag now hcap hcall hinv.current_lt cap' h
    rw [hnew, hcur]
    have : cap.nesting = pc.nesting + 1 := hinv.current_nesting p pc hcur hpc
    rw [this]
  · intro cap now hrun
    have hstart : (Fiber_Profiler_Capture_start cap now).2.calls = [] ∧
        (Fiber_Profiler_Capture_start cap now).2.current = none := by
      unfold Fiber_Profiler_Capture_start
      rw [if_neg (by simp [hrun])]
      exact ⟨rfl, rfl⟩
    constructor
    · intro i c p hi _
      rw [hstart.1] at hi
      exact absurd hi (by simp)
    · intro i hcu
      rw [hstart.2] at hcu
      exact absurd hcu (by simp)
    · intro i c hcu _
      rw [hstart.2] at hcu
      exact absurd hcu (by simp)
    · intro i c p pc hi _ _
      rw [hstart.1] at hi
      exact absurd hi (by simp)
  · intro cap flag now hinv hcap hret cap' h
    cases hcurq : cap.current with
    | none =>
      rw [Fiber_Profiler_Capture_orphan_eq cap flag now hcap hcurq hret] at h
      cases h
      exact ⟨rfl, rfl⟩
    | some idx =>
      obtain ⟨call, hcall⟩ : ∃ call, cap.calls.get? idx = some call := by
        rw [List.get?_eq_getElem?]
        exact ⟨_, List.getElem?_eq_getElem (hinv.current_lt idx hcurq)⟩
      rw [Fiber_Profiler_Capture_return_event_eq cap flag now idx call hcap hret hcurq hcall]
        at h
      cases h
      have hss := Fiber_Profiler_Capture_Call_finish_sameSession
        { cap with
            calls := listModify cap.calls idx
              (fun c => { c with duration := now - c.enter_time })
            current := call.parent
            nesting := cap.nesting - 1
            nesting_minimum := min (cap.nesting - 1) cap.nesting_minimum } idx
      exact ⟨hss.2.2.2.2.2.2.2.2.2.2.2.2.2.2.1, hss.2.2.2.2.2.2.2.2.2.2.2.2.2.1⟩

/-- Witness for C8: a call event at time 5 under an open parent frame of
nesting 0 records nesting 1 = parent nesting + 1. -/
theorem Fiber_Profiler_Capture_nesting_spec_witness :
    (Fiber_Profiler_Capture_callback
        { Fiber_Profiler_Capture_test_capturing with
            current := some 0
            nesting := 1
            calls := [Fiber_Profiler_Capture_test_frame0] } .call 5 true).map
      (fun c => c.calls.get? 1) =
      some (some { enter_time := 5
                   duration := 0
                   nesting := 1
                   children := 0
                   filtered := 0
                   event_flag := .call
                   parent := some 0 }) := by
  cases hx : Fiber_Profiler_Capture_callback
      { Fiber_Profiler_Capture_test_capturing with
          current := some 0
          nesting := 1
          calls := [Fiber_Profiler_Capture_test_frame0] } .call 5 true with
  | none => exact absurd hx (by decide)
  | some c =>
    have hinv : Fiber_Profiler_Capture_Inv
        { Fiber_Profiler_Capture_test_capturing with
            current := some 0
            nesting := 1
            calls := [Fiber_Profiler_Capture_test_frame0] } := by
      constructor
      · intro i cc p hi hp
        cases i with
        | zero =>
          simp only [List.get?] at hi
          cases hi
          exact absurd hp (by simp [Fiber_Profiler_Capture_test_frame0])
        | succ n =>
          simp [List.get?] at hi
      · intro i hcu
        cases hcu
        simp
      · intro i cc hcu hci
        cases hcu
        simp only [List.get?] at hci
        cases hci
        rfl
      · intro i cc p pc hci hp hpci
        cases i with
        | zero =>
          simp only [List.get?] at hci
          cases hci
          exact absurd hp (by simp [Fiber_Profiler_Capture_test_frame0])
        | succ n =>
          simp [List.get?] at hci
    have h := Fiber_Profiler_Capture_nesting_spec.1
      { Fiber_Profiler_Capture_test_capturing with
          current := some 0
          nesting := 1
          calls := [Fiber_Profiler_Capture_test_frame0] }
      .call 5 0 Fiber_Profiler_Capture_test_frame0 hinv rfl rfl rfl rfl c hx
    simpa [Fiber_Profiler_Capture_test_frame0] using h

/-!
## C3 — window finalisation: helpers
-/

theorem Fiber_Profiler_Capture_chainList_none (cap : Fiber_Profiler_Capture) (fuel : Nat) :
    Fiber_Profiler_Capture_chainList cap none fuel = [] := by
  cases fuel <;> rfl

/-- Chain indices never exceed the head (parents are strictly older). -/
theorem Fiber_Profiler_Capture_chainList_le :
    ∀ (fuel : Nat) (cap : Fiber_Profiler_Capture) (cur : Option Nat) (s : Nat),
      cur = some s →
      (∀ i c p, cap.calls.get? i = some c → c.parent = some p → p < i) →
      ∀ j ∈ Fiber_Profiler_Capture_chainList cap cur fuel, j ≤ s := by
  intro fuel
  induction fuel with
  | zero =>
    intro cap cur s _ _ j hj
    exact absurd hj (by simp [Fiber_Profiler_Capture_chainList])
  | succ n ih =>
    intro cap cur s hs hpl j hj
    subst hs
    unfold Fiber_Profiler_Capture_chainList at hj
    rcases List.mem_cons.mp hj with hj' | hj'
    · omega
    · cases hg : cap.calls.get? s with
      | none =>
        rw [hg] at hj'
        rw [show (none : Option Fiber_Profiler_Capture_Call).bind (·.parent) = none from rfl,
          Fiber_Profiler_Capture_chainList_none] at hj'
        exact absurd hj' (by simp)
      | some c =>
        rw [hg] at hj'
        cases hp : c.parent with
        | none =>
          rw [show (some c).bind (·.parent) = c.parent from rfl, hp,
            Fiber_Profiler_Capture_chainList_none] at hj'
          exact absurd hj' (by simp)
        | some p =>
          rw [show (some c).bind (·.parent) = c.parent from rfl, hp] at hj'
          have := ih cap (some p) p rfl hpl j hj'
          have hps : p < s := hpl s c p hg hp
          omega

/-- The chain only depends on presence and parent pointers below a bound that
dominates the start index. -/
theorem Fiber_Profiler_Capture_chainList_congr :
    ∀ (fuel : Nat) (a b : Fiber_Profiler_Capture) (cur : Option Nat) (bound : Nat),
      (∀ i, cur = some i → i < bound) →
      (∀ i c p, a.calls.get? i = some c → c.parent = some p → p < i) →
      (∀ j, j < bound →
        (a.calls.get? j).map (·.parent) = (b.calls.get? j).map (·.parent)) →
      Fiber_Profiler_Capture_chainList a cur fuel =
        Fiber_Profiler_Capture_chainList b cur fuel := by
  intro fuel
  induction fuel with
  | zero =>
    intro a b cur bound _ _ _
    cases cur <;> rfl
  | succ n ih =>
    intro a b cur bound hbd hpl hmap
    cases cur with
    | none => rfl
    | some i =>
      have hib := hbd i rfl
      have hmapi := hmap i hib
      unfold Fiber_Profiler_Capture_chainList
      congr 1
      cases ha : a.calls.get? i with
      | none =>
        have hbnone : b.calls.get? i = none := by
          rw [ha] at hmapi
          cases hbg : b.calls.get? i with
          | none => rfl
          | some cb =>
            rw [hbg] at hmapi
            exact Option.noConfusion hmapi
        rw [hbnone]
        rw [show (none : Option Fiber_Profiler_Capture_Call).bind (·.parent) = none from rfl,
          Fiber_Profiler_Capture_chainList_none, Fiber_Profiler_Capture_chainList_none]
      | some ca =>
        rw [ha] at hmapi
        cases hbg : b.calls.get? i with
        | none =>
          rw [hbg] at hmapi
          exact Option.noConfusion hmapi
        | some cb =>
          rw [hbg] at hmapi
          have hpar : ca.parent = cb.parent := Option.some.inj hmapi
          show Fiber_Profiler_Capture_chainList a ca.parent n =
            Fiber_Profiler_Capture_chainList b cb.parent n
          rw [← hpar]
          cases hp : ca.parent with
          | none =>
            rw [Fiber_Profiler_Capture_chainList_none, Fiber_Profiler_Capture_chainList_none]
          | some p =>
            exact ih a b (some p) i
              (fun k hk => by cases hk; exact hpl i ca p ha hp)
              hpl
              (fun j hj => hmap j (by omega))

/-- Below the finished index, `Call_finish` either leaves a frame alone or
only adjusts the parent's two counters. -/
theorem Fiber_Profiler_Capture_Call_finish_get?_below (cap : Fiber_Profiler_Capture)
    (idx : Nat)
    (hpl : ∀ i c p, cap.calls.get? i = some c → c.parent = some p → p < i)
    (j : Nat) (hj : j < idx) :
    (Fiber_Profiler_Capture_Call_finish cap idx).1.calls.get? j = cap.calls.get? j ∨
    (∃ c0, cap.calls.get? j = some c0 ∧
      (Fiber_Profiler_Capture_Call_finish cap idx).1.calls.get? j =
        some { c0 with children := c0.children - 1, filtered := c0.filtered + 1 }) := by
  cases hv : (Fiber_Profiler_Capture_Call_finish cap idx).2 with
  | none =>
    left
    rw [Fiber_Profiler_Capture_Call_finish_keep cap idx hv]
  | some v =>
    obtain ⟨call, hg, hr, hd, ht⟩ :=
      Fiber_Profiler_Capture_Call_finish_pop_inversion cap idx v hv
    obtain ⟨_, _, _, _, hparent, huntouched⟩ :=
      Fiber_Profiler_Capture_Call_finish_pop cap idx call hg hr hd ht
    cases hpar : call.parent with
    | none =>
      left
      exact huntouched j hj (by simp [hpar])
    | some q =>
      by_cases hjq : j = q
      · subst hjq
        have hqlt : j < idx := hpl idx call j hg hpar
        obtain ⟨pc, hpc⟩ : ∃ pc, cap.calls.get? j = some pc := by
          rw [List.get?_eq_getElem?]
          refine ⟨_, List.getElem?_eq_getElem ?_⟩
          omega
        right
        exact ⟨pc, hpc, hparent j pc hpar hqlt hpc⟩
      · left
        exact huntouched j hj (by simp [hpar, Ne.symm hjq])

/-- Above the finished index, `Call_finish` changes nothing (the pop, if any,
removes exactly the finished tail element). -/
theorem Fiber_Profiler_Capture_Call_finish_get?_above (cap : Fiber_Profiler_Capture)
    (idx : Nat) (j : Nat) (hj : idx < j) :
    (Fiber_Profiler_Capture_Call_finish cap idx).1.calls.get? j = cap.calls.get? j := by
  cases hv : (Fiber_Profiler_Capture_Call_finish cap idx).2 with
  | none =>
    rw [Fiber_Profiler_Capture_Call_finish_keep cap idx hv]
  | some v =>
    obtain ⟨call, hg, hr, hd, ht⟩ :=
      Fiber_Profiler_Capture_Call_finish_pop_inversion cap idx v hv
    obtain ⟨_, hlen, _, _, _, _⟩ :=
      Fiber_Profiler_Capture_Call_finish_pop cap idx call hg hr hd ht
    rw [List.get?_eq_none.mpr (by omega), List.get?_eq_none.mpr (by omega)]

/-- `Call_finish` keeps parent pointers pointing strictly backwards. -/
theorem Fiber_Profiler_Capture_Call_finish_parent_lt (cap : Fiber_Profiler_Capture)
    (idx : Nat)
    (hpl : ∀ i c p, cap.calls.get? i = some c → c.parent = some p → p < i) :
    ∀ i c p, (Fiber_Profiler_Capture_Call_finish cap idx).1.calls.get? i = some c →
      c.parent = some p → p < i := by
  intro i c p hi hp
  rcases Nat.lt_trichotomy i idx with hlt | heq | hgt
  · rcases Fiber_Profiler_Capture_Call_finish_get?_below cap idx hpl i hlt with h0 | ⟨c0, h0, hmod⟩
    · rw [h0] at hi
      exact hpl i c p hi hp
    · rw [hmod] at hi
      cases hi
      exact hpl i c0 p h0 hp
  · subst heq
    cases hv : (Fiber_Profiler_Capture_Call_finish cap i).2 with
    | none =>
      rw [Fiber_Profiler_Capture_Call_finish_keep cap i hv] at hi
      exact hpl i c p hi hp
    | some v =>
      obtain ⟨call, hg, hr, hd, ht⟩ :=
        Fiber_Profiler_Capture_Call_finish_pop_inversion cap i v hv
      obtain ⟨_, _, hnone, _, _, _⟩ :=
        Fiber_Profiler_Capture_Call_finish_pop cap i call hg hr hd ht
      rw [hnone] at hi
      exact Option.noConfusion hi
  · rw [Fiber_Profiler_Capture_Call_finish_get?_above cap idx i hgt] at hi
    exact hpl i c p hi hp

/-- The finalisation walk of `Capture_finish`, characterised: frames strictly
above the chain head are untouched, and every frame on the parent chain either
survives with its duration forced to `cutoff - enter_time` (enter time and
event flag unchanged), or was popped by the filter, in which case its forced
duration was below the filter threshold and it was not return-class. -/
theorem Fiber_Profiler_Capture_finishChain_spec :
    ∀ (fuel : Nat) (cap : Fiber_Profiler_Capture) (cur : Option Nat) (t : Int),
      (∀ i c p, cap.calls.get? i = some c → c.parent = some p → p < i) →
      (∀ i, cur = some i → i < cap.calls.length ∧ i < fuel) →
      ((∀ j, (∀ b, cur = some b → b < j) →
          (Fiber_Profiler_Capture_finishChain cap cur t fuel).1.calls.get? j =
            cap.calls.get? j) ∧
        (∀ j, j ∈ Fiber_Profiler_Capture_chainList cap cur fuel →
          ∀ c, cap.calls.get? j = some c →
            (∀ c2, (Fiber_Profiler_Capture_finishChain cap cur t fuel).1.calls.get? j =
                some c2 →
              c2.duration = t - c.enter_time ∧ c2.enter_time = c.enter_time ∧
                c2.event_flag = c.event_flag) ∧
            ((Fiber_Profiler_Capture_finishChain cap cur t fuel).1.calls.get? j = none →
              t - c.enter_time < cap.filter_threshold ∧
                event_flag_return_p c.event_flag = false))) := by
  intro fuel
  induction fuel with
  | zero =>
    intro cap cur t hpl hbound
    cases cur with
    | none =>
      constructor
      · intro j _
        rfl
      · intro j hj
        rw [Fiber_Profiler_Capture_chainList_none] at hj
        exact absurd hj (by simp)
    | some i =>
      exact absurd (hbound i rfl).2 (by omega)
  | succ n ih =>
    intro cap cur t hpl hbound
    cases cur with
    | none =>
      constructor
      · intro j _
        rfl
      · intro j hj
        rw [Fiber_Profiler_Capture_chainList_none] at hj
        exact absurd hj (by simp)
    | some idx =>
      obtain ⟨call, hcall⟩ : ∃ call, cap.calls.get? idx = some call := by
        rw [List.get?_eq_getElem?]
        exact ⟨_, List.getElem?_eq_getElem (hbound idx rfl).1⟩
      have hstep : (Fiber_Profiler_Capture_finishChain cap (some idx) t (n + 1)).1 =
          (Fiber_Profiler_Capture_finishChain
            (Fiber_Profiler_Capture_Call_finish
              { cap with calls := listModify cap.calls idx (fun c => { c with duration := t - c.enter_time }) } idx).1
            call.parent t n).1 := by
        conv_lhs => unfold Fiber_Profiler_Capture_finishChain
        simp only [hcall]
      have hpl1 : ∀ i c p, (listModify cap.calls idx
          (fun c => { c with duration := t - c.enter_time })).get? i = some c →
          c.parent = some p → p < i := by
        intro i c p hi hp
        by_cases hii : idx = i
        · subst hii
          have hc : c = { call with duration := t - call.enter_time } := by
            rw [listModify_get?_self hcall] at hi
            exact (Option.some.inj hi).symm
          subst hc
          exact hpl idx call p hcall hp
        · rw [listModify_get?_ne _ hii _] at hi
          exact hpl i c p hi hp
      have hparl_r : ∀ i c p, (Fiber_Profiler_Capture_Call_finish
          { cap with calls := listModify cap.calls idx (fun c => { c with duration := t - c.enter_time }) } idx).1.calls.get? i =
            some c → c.parent = some p → p < i :=
        Fiber_Profiler_Capture_Call_finish_parent_lt _ idx hpl1
      have hfilter_r : (Fiber_Profiler_Capture_Call_finish
          { cap with calls := listModify cap.calls idx (fun c => { c with duration := t - c.enter_time }) } idx).1.filter_threshold =
          cap.filter_threshold :=
        (Fiber_Profiler_Capture_Call_finish_sameSession _ idx).2.1
      have hlen_r : ∀ i, call.parent = some i →
          i < (Fiber_Profiler_Capture_Call_finish
            { cap with calls := listModify cap.calls idx (fun c => { c with duration := t - c.enter_time }) } idx).1.calls.length ∧
          i < n := by
        intro p hp
        have hpi : p < idx := hpl idx call p hcall hp
        have hfl : idx < n + 1 := (hbound idx rfl).2
        refine ⟨?_, by omega⟩
        cases hv : (Fiber_Profiler_Capture_Call_finish
            { cap with calls := listModify cap.calls idx (fun c => { c with duration := t - c.enter_time }) } idx).2 with
        | none =>
          rw [Fiber_Profiler_Capture_Call_finish_keep _ idx hv]
          show p < (listModify cap.calls idx
            (fun c => { c with duration := t - c.enter_time })).length
          rw [listModify_length]
          exact lt_trans hpi (hbound idx rfl).1
        | some v =>
          obtain ⟨call1, hg1, hr1, hd1, ht1⟩ :=
            Fiber_Profiler_Capture_Call_finish_pop_inversion _ idx v hv
          obtain ⟨_, hlen1, _⟩ :=
            Fiber_Profiler_Capture_Call_finish_pop _ idx call1 hg1 hr1 hd1 ht1
          rw [hlen1]
          exact hpi
      have hmapbelow : ∀ j, j < idx →
          ((Fiber_Profiler_Capture_Call_finish
            { cap with calls := listModify cap.calls idx (fun c => { c with duration := t - c.enter_time }) } idx).1.calls.get? j).map
              (·.parent) = (cap.calls.get? j).map (·.parent) := by
        intro j hj
        rcases Fiber_Profiler_Capture_Call_finish_get?_below { cap with calls := listModify cap.calls idx (fun c => { c with duration := t - c.enter_time }) } idx hpl1 j hj with
          h0 | ⟨c0, h0, hmod⟩
        · rw [h0]
          show ((listModify cap.calls idx
            (fun c => { c with duration := t - c.enter_time })).get? j).map (·.parent) = _
          rw [listModify_get?_ne _ (by omega) _]
        · have hc0 : cap.calls.get? j = some c0 := by
            rw [← listModify_get?_ne cap.calls
              (show idx ≠ j by omega)
              (fun c => { c with duration := t - c.enter_time })]
            exact h0
          rw [hmod, hc0]
          rfl
      have hchain : Fiber_Profiler_Capture_chainList
          (Fiber_Profiler_Capture_Call_finish
            { cap with calls := listModify cap.calls idx (fun c => { c with duration := t - c.enter_time }) } idx).1
            call.parent n =
          Fiber_Profiler_Capture_chainList cap call.parent n :=
        Fiber_Profiler_Capture_chainList_congr n _ cap call.parent idx
          (fun k hk => hpl idx call k hcall hk) hparl_r hmapbelow
      obtain ⟨IH1, IH2⟩ := ih (Fiber_Profiler_Capture_Call_finish
        { cap with calls := listModify cap.calls idx (fun c => { c with duration := t - c.enter_time }) } idx).1
        call.parent t hparl_r hlen_r
      constructor
      · intro j hjgt
        have hij : idx < j := hjgt idx rfl
        rw [hstep]
        rw [IH1 j (fun b hb => lt_trans (hpl idx call b hcall hb) hij)]
        rw [Fiber_Profiler_Capture_Call_finish_get?_above _ idx j hij]
        show (listModify cap.calls idx
          (fun c => { c with duration := t - c.enter_time })).get? j = cap.calls.get? j
        exact listModify_get?_ne _ (by omega) _
      · intro j hjmem c hc
        unfold Fiber_Profiler_Capture_chainList at hjmem
        rw [hcall] at hjmem
        rcases List.mem_cons.mp hjmem with hj1 | hj2
        · subst hj1
          have hceq : c = call := by
            rw [hcall] at hc
            exact (Option.some.inj hc).symm
          subst hceq
          rw [hstep]
          have hround : (Fiber_Profiler_Capture_finishChain
              (Fiber_Profiler_Capture_Call_finish
                { cap with calls := listModify cap.calls j (fun d => { d with duration := t - d.enter_time }) } j).1
              c.parent t n).1.calls.get? j =
              (Fiber_Profiler_Capture_Call_finish
                { cap with calls := listModify cap.calls j (fun d => { d with duration := t - d.enter_time }) } j).1.calls.get?
                j :=
            IH1 j (fun b hb => hpl j c b hcall hb)
          rw [hround]
          cases hv : (Fiber_Profiler_Capture_Call_finish
              { cap with calls := listModify cap.calls j (fun d => { d with duration := t - d.enter_time }) } j).2 with
          | none =>
            rw [Fiber_Profiler_Capture_Call_finish_keep _ j hv]
            have hself : ({ cap with calls := listModify cap.calls j (fun d => { d with duration := t - d.enter_time }) }
                  : Fiber_Profiler_Capture).calls.get? j =
                some { c with duration := t - c.enter_time } :=
              listModify_get?_self hcall _
            rw [hself]
            constructor
            · intro c2 hc2
              injection hc2 with h2
              subst h2
              exact ⟨rfl, rfl, rfl⟩
            · intro hnone
              exact Option.noConfusion hnone
          | some v =>
            obtain ⟨call1, hg1, hr1, hd1, ht1⟩ :=
              Fiber_Profiler_Capture_Call_finish_pop_inversion _ j v hv
            have hc1 : call1 = { c with duration := t - c.enter_time } := by
              have hg1x : (listModify cap.calls j
                  (fun d => { d with duration := t - d.enter_time })).get? j =
                  some call1 := hg1
              rw [listModify_get?_self hcall] at hg1x
              exact (Option.some.inj hg1x).symm
            obtain ⟨_, _, hidxnone, _, _, _⟩ :=
              Fiber_Profiler_Capture_Call_finish_pop _ j call1 hg1 hr1 hd1 ht1
            constructor
            · intro c2 hc2
              rw [hidxnone] at hc2
              exact Option.noConfusion hc2
            · intro _
              constructor
              · have hd2 := hd1
                rw [hc1] at hd2
                exact hd2
              · have hr2 := hr1
                rw [hc1] at hr2
                exact hr2
        · have hj2x : j ∈ Fiber_Profiler_Capture_chainList cap call.parent n := hj2
          have hjidx : j < idx := by
            cases hp : call.parent with
            | none =>
              rw [hp, Fiber_Profiler_Capture_chainList_none] at hj2x
              exact absurd hj2x (by simp)
            | some p =>
              rw [hp] at hj2x
              have hle := Fiber_Profiler_Capture_chainList_le n cap (some p) p rfl hpl j hj2x
              have hpidx := hpl idx call p hcall hp
              omega
          have hj2y : j ∈ Fiber_Profiler_Capture_chainList cap call.parent n := hj2
          have hmem_r : j ∈ Fiber_Profiler_Capture_chainList
              (Fiber_Profiler_Capture_Call_finish
                { cap with calls := listModify cap.calls idx (fun c => { c with duration := t - c.enter_time }) } idx).1
              call.parent n := by
            rw [hchain]
            exact hj2y
          have hc1j : (listModify cap.calls idx
              (fun c => { c with duration := t - c.enter_time })).get? j =
              cap.calls.get? j :=
            listModify_get?_ne _ (by omega) _
          obtain ⟨cr, hcr, hcrenter, hcrflag⟩ :
              ∃ cr, (Fiber_Profiler_Capture_Call_finish
                { cap with calls := listModify cap.calls idx (fun c => { c with duration := t - c.enter_time }) } idx).1.calls.get?
                  j = some cr ∧
                cr.enter_time = c.enter_time ∧ cr.event_flag = c.event_flag := by
            rcases Fiber_Profiler_Capture_Call_finish_get?_below { cap with calls := listModify cap.calls idx (fun c => { c with duration := t - c.enter_time }) } idx hpl1 j hjidx with
              h0 | ⟨c0, h0, hmod⟩
            · refine ⟨c, ?_, rfl, rfl⟩
              rw [h0]
              show (listModify cap.calls idx
                (fun c => { c with duration := t - c.enter_time })).get? j = some c
              rw [hc1j]
              exact hc
            · have hc0c : c0 = c := by
                have h0x : (listModify cap.calls idx
                    (fun c => { c with duration := t - c.enter_time })).get? j =
                    some c0 := h0
                rw [hc1j, hc] at h0x
                exact (Option.some.inj h0x).symm
              subst hc0c
              exact ⟨_, hmod, rfl, rfl⟩
          have hIH := IH2 j hmem_r cr hcr
          rw [hstep]
          constructor
          · intro c2 hc2
            obtain ⟨hdur, hent, hflag⟩ := hIH.1 c2 hc2
            refine ⟨?_, ?_, ?_⟩
            · rw [hdur, hcrenter]
            · rw [hent, hcrenter]
            · rw [hflag, hcrflag]
          · intro hnone
            obtain ⟨hdlt, hflg⟩ := hIH.2 hnone
            constructor
            · rw [← hcrenter, ← hfilter_r]
              exact hdlt
            · rw [← hcrflag]
              exact hflg

/-- C3 (corrected): window finalisation force-closes every still-open frame on
the parent chain from `current` against the supplied cutoff — each chain frame
either survives with `duration = cutoff - enter_time` or is discarded by the
filter policy (forced duration below the threshold, not return-class) — and
frames above the chain head are untouched; a fiber switch that ends a
capturing window runs this finalisation and then truncates the arena (the
post-switch arena is empty).  `stop()`, however, does *not* finalise: it
truncates directly, handing `element_free` the open frames exactly as
recorded, durations never computed. -/
theorem Fiber_Profiler_Capture_window_finalisation
    (cap : Fiber_Profiler_Capture) (t now : Int) (sample : Bool)
    (hpl : ∀ i c p, cap.calls.get? i = some c → c.parent = some p → p < i)
    (hcur : ∀ i, cap.current = some i → i < cap.calls.length) :
    ((∀ j, (∀ b, cap.current = some b → b < j) →
        (Fiber_Profiler_Capture_finish cap t).calls.get? j = cap.calls.get? j) ∧
      (∀ j, j ∈ Fiber_Profiler_Capture_chainList cap cap.current
          (cap.calls.length + 1) →
        ∀ c, cap.calls.get? j = some c →
          (∀ c2, (Fiber_Profiler_Capture_finish cap t).calls.get? j = some c2 →
            c2.duration = t - c.enter_time ∧ c2.enter_time = c.enter_time ∧
              c2.event_flag = c.event_flag) ∧
          ((Fiber_Profiler_Capture_finish cap t).calls.get? j = none →
            t - c.enter_time < cap.filter_threshold ∧
              event_flag_return_p c.event_flag = false))) ∧
    (cap.capture = true →
      (Fiber_Profiler_Capture_fiber_switch cap now sample).1.calls = []) ∧
    (cap.running = true →
      (Fiber_Profiler_Capture_stop cap).2.2 = cap.calls) := by
  refine ⟨?_, ?_, ?_⟩
  · exact Fiber_Profiler_Capture_finishChain_spec (cap.calls.length + 1) cap cap.current t
      hpl (fun i hi => ⟨hcur i hi, by have := hcur i hi; omega⟩)
  · intro hcapt
    by_cases hgt : cap.stall_threshold < now - cap.switch_time
    · cases sample <;>
        simp [Fiber_Profiler_Capture_fiber_switch, hcapt,
          Fiber_Profiler_Capture_finish_stall_threshold,
          Fiber_Profiler_Capture_finish_output_nil,
          Fiber_Profiler_Capture_finish_switches,
          Fiber_Profiler_Capture_finish_stalls,
          Fiber_Profiler_Capture_finish_capture,
          Fiber_Profiler_Capture_pause_stall_threshold,
          Fiber_Profiler_Capture_pause_output_nil,
          Fiber_Profiler_Capture_pause_switches,
          Fiber_Profiler_Capture_pause_stalls,
          Fiber_Profiler_Capture_pause_capture,
          Fiber_Profiler_Capture_reset, Fiber_Profiler_Capture_resume,
          Fiber_Profiler_Capture_print, hgt]
    · cases sample <;>
        simp [Fiber_Profiler_Capture_fiber_switch, hcapt,
          Fiber_Profiler_Capture_finish_stall_threshold,
          Fiber_Profiler_Capture_finish_output_nil,
          Fiber_Profiler_Capture_finish_switches,
          Fiber_Profiler_Capture_finish_stalls,
          Fiber_Profiler_Capture_finish_capture,
          Fiber_Profiler_Capture_pause_stall_threshold,
          Fiber_Profiler_Capture_pause_output_nil,
          Fiber_Profiler_Capture_pause_switches,
          Fiber_Profiler_Capture_pause_stalls,
          Fiber_Profiler_Capture_pause_capture,
          Fiber_Profiler_Capture_reset, Fiber_Profiler_Capture_resume,
          Fiber_Profiler_Capture_print, hgt]
  · intro hrun
    unfold Fiber_Profiler_Capture_stop
    rw [hrun]
    simp [Fiber_Profiler_Capture_pause_calls]

/-- C3 counterexample to the claim as stated: on session stop the code does
not force-close the open frames before truncation.  With two frames opened at
times 3 and 4 and a stop at time 9, the elements handed to `element_free` by
the code's `stop()` still carry duration 0, while the spec-worded stop (close
against the cutoff, filter, then truncate) would free them with durations 6
and 5. -/
theorem Fiber_Profiler_Capture_stop_no_finalise_counterexample :
    (Fiber_Profiler_Capture_stop Fiber_Profiler_Capture_test_open2).2.2.map
      (·.duration) = [0, 0] ∧
    (Fiber_Profiler_Capture_stop_spec Fiber_Profiler_Capture_test_open2 9).2.2.map
      (·.duration) = [6, 5] ∧
    ([0, 0] : List Int) ≠ [6, 5] :=
  ⟨rfl, rfl, by decide⟩

/-- Witness for C3: the capturing session with two open nested frames.  A
fiber switch at time 9 finalises and truncates (empty arena afterwards);
`stop()` frees exactly the recorded frames, values untouched. -/
theorem Fiber_Profiler_Capture_window_finalisation_witness :
    (Fiber_Profiler_Capture_fiber_switch Fiber_Profiler_Capture_test_open2 9 false).1.calls
        = [] ∧
    (Fiber_Profiler_Capture_stop Fiber_Profiler_Capture_test_open2).2.2 =
      Fiber_Profiler_Capture_test_open2.calls := by
  have h := Fiber_Profiler_Capture_window_finalisation Fiber_Profiler_Capture_test_open2 9 9
    false
    (by
      intro i c p hg hp
      match i with
      | 0 =>
        have hc : c = Fiber_Profiler_Capture_test_frame0 := (Option.some.inj hg).symm
        subst hc
        exact absurd hp (by simp [Fiber_Profiler_Capture_test_frame0])
      | 1 =>
        have hc : c = Fiber_Profiler_Capture_test_frame1 := (Option.some.inj hg).symm
        subst hc
        have hp0 : (0 : Nat) = p := Option.some.inj hp
        omega
      | (m + 2) => exact Option.noConfusion hg)
    (by
      intro i hi
      cases Option.some.inj hi
      decide)
  exact ⟨h.2.1 rfl, h.2.2 rfl⟩
